import Mathlib

/-!
Shallow embedding of the daily-brief agent (app/main.py `chat` handler and
app/agent_tools.py `search_federal_executive_orders`), with theorems checking
the specification's claims against it.

Modelling conventions:
* Python strings are `List Char` (`Str`); characters are Unicode code points.
  SQLite's `LOWER` and Python's `str.lower()` are modelled by ASCII lowercasing
  (they agree on ASCII, which is all the fixed strings in the program use).
* SQLite string comparison (BINARY collation) is code-point lexicographic
  order, `strLt`/`strLe` below.
* `datetime` dates are `Date` triples; `datetime.now()` is an explicit
  `today` parameter.
* Fallible external effects (the SQLite connection, the model backend call)
  are explicit parameters (`DbOutcome`, `Except Str BackendResp`).
-/

namespace DailyBrief

abbrev Str := List Char

/-- ASCII lowercasing of one character, as SQLite `LOWER` does (and as Python
`str.lower()` does on ASCII input). -/
def asciiLower (c : Char) : Char :=
  if 'A' ≤ c ∧ c ≤ 'Z' then Char.ofNat (c.toNat + 32) else c

/-- Lowercase a string character-wise. -/
def lowerStr (s : Str) : Str := s.map asciiLower

/-- Strict lexicographic order on strings by code point (SQLite BINARY
collation, memcmp order on UTF-8). -/
def strLt : Str → Str → Bool
  | [], [] => false
  | [], _ :: _ => true
  | _ :: _, [] => false
  | a :: as, b :: bs => if a < b then true else if b < a then false else strLt as bs

/-- Non-strict lexicographic order on strings. -/
def strLe (a b : Str) : Bool := !(strLt b a)

/-- The set of characters Python `str.strip()` removes (ASCII whitespace). -/
def isPyWs (c : Char) : Bool :=
  c = ' ' || c = '\t' || c = '\n' || c = '\x0d' || c = '\x0b' || c = '\x0c'

/-- Python `str.strip()`: trim whitespace from both ends. -/
def pyStrip (s : Str) : Str :=
  (s.dropWhile isPyWs).reverse.dropWhile isPyWs |>.reverse

/-- Python `s.split(' ')[0]`: the characters before the first space. -/
def beforeSpace : Str → Str
  | [] => []
  | c :: cs => if c = ' ' then [] else c :: beforeSpace cs

/-- Python `str.split()` with no argument: split on runs of whitespace,
discarding empty pieces. -/
def splitWs : Str → List Str
  | [] => []
  | c :: cs =>
    if isPyWs c then splitWs cs
    else match splitWs cs with
      | [] => [[c]]
      | p :: ps =>
        match cs with
        | [] => [[c]]
        | d :: _ => if isPyWs d then [c] :: p :: ps else (c :: p) :: ps

/-- Split a string on every occurrence of a separator character, keeping
empty pieces (Python `str.split(sep)`). -/
def splitOn (sep : Char) : Str → List Str
  | [] => [[]]
  | c :: cs =>
    if c = sep then [] :: splitOn sep cs
    else match splitOn sep cs with
      | [] => [[c]]
      | p :: ps => (c :: p) :: ps

def isDigitCh (c : Char) : Bool := '0' ≤ c && c ≤ '9'

def allDigits (s : Str) : Bool := s.all isDigitCh

def digitsToNat (s : Str) : Nat := s.foldl (fun a c => a * 10 + (c.toNat - 48)) 0

/-! ## Calendar arithmetic

`datetime - timedelta(days=k)` and `datetime.strftime("%Y-%m-%d")`, via the
standard civil-calendar/day-number conversion (proleptic Gregorian, as Python
`datetime` uses). -/

structure Date where
  y : Int
  m : Int
  d : Int
deriving DecidableEq, Repr

/-- Day number of a civil date (days_from_civil). -/
def daysFromCivil (dt : Date) : Int :=
  let y := if dt.m ≤ 2 then dt.y - 1 else dt.y
  let era := (if 0 ≤ y then y else y - 399) / 400
  let yoe := y - era * 400
  let mp := (dt.m + 9) % 12
  let doy := (153 * mp + 2) / 5 + dt.d - 1
  let doe := yoe * 365 + yoe / 4 - yoe / 100 + doy
  era * 146097 + doe - 719468

/-- Civil date of a day number (civil_from_days). -/
def civilFromDays (z0 : Int) : Date :=
  let z := z0 + 719468
  let era := (if 0 ≤ z then z else z - 146096) / 146097
  let doe := z - era * 146097
  let yoe := (doe - doe / 1460 + doe / 36524 - doe / 146096) / 365
  let y := yoe + era * 400
  let doy := doe - (365 * yoe + yoe / 4 - yoe / 100)
  let mp := (5 * doy + 2) / 153
  let d := doy - (153 * mp + 2) / 5 + 1
  let m := mp + (if mp < 10 then 3 else -9)
  ⟨y + (if m ≤ 2 then 1 else 0), m, d⟩

/-- `today - timedelta(days=k)`. -/
def dateSubDays (dt : Date) (k : Nat) : Date :=
  civilFromDays (daysFromCivil dt - (k : Int))

/-- Decimal digits of a natural number, left-padded with zeros to width `w`. -/
def padNum (w : Nat) (n : Nat) : Str :=
  let s := Nat.toDigits 10 n
  List.replicate (w - s.length) '0' ++ s

/-- `strftime("%Y-%m-%d")`. -/
def fmtDate (dt : Date) : Str :=
  padNum 4 dt.y.toNat ++ '-' :: (padNum 2 dt.m.toNat ++ '-' :: padNum 2 dt.d.toNat)

/-- Days in a month of the proleptic Gregorian calendar. -/
def daysInMonth (y m : Nat) : Nat :=
  if m = 2 then (if y % 4 = 0 ∧ (y % 100 ≠ 0 ∨ y % 400 = 0) then 29 else 28)
  else if m = 4 ∨ m = 6 ∨ m = 9 ∨ m = 11 then 30
  else 31

/-- Python `datetime.strptime(s, "%Y-%m-%d")` as a partial function: exactly
four year digits, one or two month digits, one or two day digits, nothing
else, and the triple must be a valid calendar date (year at least 1). -/
def parseYMD (s : Str) : Option Date :=
  match splitOn '-' s with
  | [ys, ms, ds] =>
    if ys.length = 4 ∧ allDigits ys ∧
       (ms.length = 1 ∨ ms.length = 2) ∧ allDigits ms ∧
       (ds.length = 1 ∨ ds.length = 2) ∧ allDigits ds then
      let y := digitsToNat ys
      let m := digitsToNat ms
      let d := digitsToNat ds
      if 1 ≤ y ∧ 1 ≤ m ∧ m ≤ 12 ∧ 1 ≤ d ∧ d ≤ daysInMonth y m then
        some ⟨(y : Int), (m : Int), (d : Int)⟩
      else none
    else none
  | _ => none

/-- A bound of the search window before it is anchored: either `today - k`
(`timedelta` subtraction) or an absolute parsed date. -/
inductive DateVal where
  | rel (daysBack : Nat)
  | abs (dt : Date)
deriving DecidableEq, Repr

/-- The date-range resolution of `search_federal_executive_orders`
(agent_tools.py lines 67-78), returning the (start, end) pair. -/
def resolveDateRange (s : Str) : DateVal × DateVal :=
  if s = "today".data then (.rel 0, .rel 0)
  else if s = "yesterday".data then (.rel 1, .rel 1)
  else if s = "last_7_days".data then (.rel 6, .rel 0)
  else if s = "last_30_days".data then (.rel 29, .rel 0)
  else if s = "last_year".data then (.rel 365, .rel 0)
  else match parseYMD s with
    | some dt => (.abs dt, .abs dt)
    | none => (.rel 6, .rel 0)

/-- Anchor a window bound at the current date. -/
def dateValAt (today : Date) : DateVal → Date
  | .rel k => dateSubDays today k
  | .abs dt => dt

/-! ## The document store and the SQL query

agent_tools.py builds
`document_type = ? AND SUBSTR(publication_date,1,10) BETWEEN ? AND ?
 AND ((LOWER(title) LIKE ? OR LOWER(abstract) LIKE ?) OR ...)
 ORDER BY publication_date DESC LIMIT 10`
with each keyword token spliced into the pattern `%token%`. -/

/-- One row of the `federal_documents` table (`publication_date` is declared
NOT NULL in db_setup.py; `abstract` is nullable). -/
structure StoreRow where
  document_number : Str
  document_type : Str
  title : Str
  publication_date : Str
  abstract : Option Str
  html_url : Str
deriving DecidableEq, Repr

/-- SQLite `LIKE` pattern matching, fuel-recursive so that it computes by
kernel reduction; every step shortens the pattern or the string, so fuel
`p.length + s.length + 1` (supplied by `likeMatch` below) never runs out. -/
def likeMatchF : Nat → Str → Str → Bool
  | 0, _, _ => false
  | fuel + 1, p, s =>
    match p with
    | [] => s.isEmpty
    | c :: ps =>
      if c = '%' then
        likeMatchF fuel ps s ||
          (match s with
           | [] => false
           | _ :: s2 => likeMatchF fuel (c :: ps) s2)
      else
        match s with
        | [] => false
        | d :: s2 => if c = '_' then likeMatchF fuel ps s2 else (c == d) && likeMatchF fuel ps s2

/-- SQLite `LIKE` pattern matching: `%` matches any sequence, `_` matches
any single character, anything else matches itself.  (SQLite's ASCII case
folding is immaterial here: both operands are already lowercased before
matching.) -/
def likeMatch (p s : Str) : Bool := likeMatchF (p.length + s.length + 1) p s

/-- The condition `LOWER(title) LIKE '%kw%' OR LOWER(abstract) LIKE '%kw%'`
for one keyword token.  For a NULL abstract the second disjunct is SQL NULL,
so only the title can match. -/
def tokenLikeHit (kw : Str) (r : StoreRow) : Bool :=
  likeMatch ('%' :: (kw ++ ['%'])) (lowerStr r.title) ||
    (match r.abstract with
     | some a => likeMatch ('%' :: (kw ++ ['%'])) (lowerStr a)
     | none => false)

/-- `query_keywords.strip().lower().split()`. -/
def kwTokens (q : Str) : List Str := splitWs (lowerStr (pyStrip q))

/-- The full WHERE clause applied to one row. -/
def rowMatches (startS endS : Str) (kwq : Option Str) (r : StoreRow) : Bool :=
  (r.document_type == "Presidential Document".data) &&
  (strLe startS (r.publication_date.take 10) && strLe (r.publication_date.take 10) endS) &&
  (match kwq with
   | some q => if q ≠ [] ∧ pyStrip q ≠ [] then (kwTokens q).any (fun t => tokenLikeHit t r) else true
   | none => true)

/-- Descending order on the raw `publication_date` column (ORDER BY ... DESC). -/
def rowDescLe (a b : StoreRow) : Bool := strLe b.publication_date a.publication_date

/-- Insertion into a list ordered by `r` (`r a b` = `a` may precede `b`). -/
def insertBy {α : Type} (r : α → α → Bool) (x : α) : List α → List α
  | [] => [x]
  | y :: ys => if r x y then x :: y :: ys else y :: insertBy r x ys

/-- Insertion sort by `r`: models SQLite's ORDER BY, which guarantees only
the ordering relation (its tie order is unspecified). -/
def sortBy {α : Type} (r : α → α → Bool) : List α → List α
  | [] => []
  | x :: xs => insertBy r x (sortBy r xs)

/-- The SELECT: filter, order newest-first, LIMIT 10. -/
def queryRows (startS endS : Str) (kwq : Option Str) (store : List StoreRow) : List StoreRow :=
  (sortBy rowDescLe (store.filter (rowMatches startS endS kwq))).take 10

/-- One returned document after the Python post-processing loop
(agent_tools.py lines 109-115). -/
structure OutDoc where
  document_number : Str
  title : Str
  publication_date : Str
  abstract : Str
  html_url : Str
deriving DecidableEq, Repr

/-- `row_dict['abstract'] = row_dict.get('abstract') or "No abstract available."`
and `row_dict['publication_date'] = row_dict['publication_date'].split(' ')[0]`
(the latter only when the date is truthy). -/
def postProcess (r : StoreRow) : OutDoc where
  document_number := r.document_number
  title := r.title
  publication_date :=
    if r.publication_date = [] then r.publication_date else beforeSpace r.publication_date
  abstract :=
    match r.abstract with
    | some a => if a = [] then "No abstract available.".data else a
    | none => "No abstract available.".data
  html_url := r.html_url

/-- The document list computed by `search_federal_executive_orders` on its
success path, as a function of the current date and the store contents. -/
def searchDocs (today : Date) (store : List StoreRow)
    (query_keywords : Option Str) (date_range_str : Str) : List OutDoc :=
  let w := resolveDateRange date_range_str
  let startS := fmtDate (dateValAt today w.1)
  let endS := fmtDate (dateValAt today w.2)
  (queryRows startS endS query_keywords store).map postProcess

/-! ## JSON values, `json.dumps` and `json.loads`

The tool serializes its result with `json.dumps` and the orchestrator parses
it back with `json.loads`.  `JVal` is the JSON value universe; numbers carry
their lexeme (no claim inspects a numeric value).  The printer reproduces
CPython's `json.dumps` output (ensure_ascii escaping; `indent=2` layout for
the document list).  The parser follows CPython's `json.loads` with its
default settings, including the non-standard `NaN`, `Infinity` and
`-Infinity` constants and lone surrogate escapes, which `json.loads`
accepts by default (lone surrogates decode to the stand-in
`loneSurrogateChar`, see there). -/

inductive JVal where
  | jstr (s : Str)
  | jnum (lexeme : Str)
  | jbool (b : Bool)
  | jnull
  | jarr (elems : List JVal)
  | jobj (fields : List (Str × JVal))

def hexDigitChar (n : Nat) : Char := "0123456789abcdef".data.getD n '0'

def hex4 (n : Nat) : Str :=
  [hexDigitChar (n / 4096 % 16), hexDigitChar (n / 256 % 16),
   hexDigitChar (n / 16 % 16), hexDigitChar (n % 16)]

/-- `json.dumps` escaping of one character (default `ensure_ascii=True`):
named escapes for `"`, `\` and five controls, `\u00xx` for other controls,
ASCII printable characters verbatim, `\uxxxx` for other BMP characters and a
surrogate pair for astral characters. -/
def escChar (c : Char) : Str :=
  if c = '"' then ['\\', '"']
  else if c = '\\' then ['\\', '\\']
  else if c = '\x08' then ['\\', 'b']
  else if c = '\t' then ['\\', 't']
  else if c = '\n' then ['\\', 'n']
  else if c = '\x0c' then ['\\', 'f']
  else if c = '\x0d' then ['\\', 'r']
  else if c.toNat < 0x20 then '\\' :: 'u' :: hex4 c.toNat
  else if c.toNat ≤ 0x7e then [c]
  else if c.toNat < 0x10000 then '\\' :: 'u' :: hex4 c.toNat
  else
    let n := c.toNat - 0x10000
    ('\\' :: 'u' :: hex4 (0xD800 + n / 0x400)) ++ ('\\' :: 'u' :: hex4 (0xDC00 + n % 0x400))

def escStr : Str → Str
  | [] => []
  | c :: cs => escChar c ++ escStr cs

/-- A JSON string literal: `"` + escaped body + `"`. -/
def qStr (s : Str) : Str := '"' :: (escStr s ++ ['"'])

/-- `json.dumps({key: msg})` with the default separators. -/
def printKVObj (key msg : Str) : Str :=
  '\x7b' :: (qStr key ++ ':' :: ' ' :: (qStr msg ++ ['\x7d']))

def docToJVal (d : OutDoc) : JVal :=
  .jobj [("document_number".data, .jstr d.document_number),
         ("title".data, .jstr d.title),
         ("publication_date".data, .jstr d.publication_date),
         ("abstract".data, .jstr d.abstract),
         ("html_url".data, .jstr d.html_url)]

def joinSep (sep : Str) : List Str → Str
  | [] => []
  | [x] => x
  | x :: y :: rest => x ++ sep ++ joinSep sep (y :: rest)

/-- One `"key": "value"` line at the four-space inner indent of
`json.dumps(..., indent=2)`. -/
def printField (kv : Str × Str) : Str :=
  "    ".data ++ (qStr kv.1 ++ ':' :: ' ' :: qStr kv.2)

/-- An object of string fields at nesting depth one of
`json.dumps(..., indent=2)`: `  {`, one field per line, fields separated by
commas, closed by `  }`. -/
def printStrObjIndented (fields : List (Str × Str)) : Str :=
  (' ' :: ' ' :: '\x7b' :: '\n' :: joinSep (',' :: '\n' :: []) (fields.map printField)) ++
    '\n' :: ' ' :: ' ' :: '\x7d' :: []

/-- One document object as laid out by `json.dumps(documents, indent=2)`
(keys in SELECT column order, which is dict insertion order). -/
def printDocObj (d : OutDoc) : Str :=
  printStrObjIndented
    [("document_number".data, d.document_number),
     ("title".data, d.title),
     ("publication_date".data, d.publication_date),
     ("abstract".data, d.abstract),
     ("html_url".data, d.html_url)]

/-- `json.dumps(documents, indent=2)`. -/
def printDocsJson (docs : List OutDoc) : Str :=
  if docs = [] then "[]".data
  else '[' :: '\n' :: (joinSep (',' :: '\n' :: []) (docs.map printDocObj) ++ '\n' :: ']' :: [])

def isJsonWs (c : Char) : Bool := c = ' ' || c = '\t' || c = '\n' || c = '\x0d'

def skipWs (s : Str) : Str := s.dropWhile isJsonWs

def parseHexDigit (c : Char) : Option Nat :=
  if '0' ≤ c ∧ c ≤ '9' then some (c.toNat - 48)
  else if 'a' ≤ c ∧ c ≤ 'f' then some (c.toNat - 87)
  else if 'A' ≤ c ∧ c ≤ 'F' then some (c.toNat - 55)
  else none

def readHex4 : Str → Option (Nat × Str)
  | a :: b :: c :: d :: rest =>
    match parseHexDigit a, parseHexDigit b, parseHexDigit c, parseHexDigit d with
    | some x, some y, some z, some w => some (x * 4096 + y * 256 + z * 16 + w, rest)
    | _, _, _, _ => none
  | _ => none

def escTable (c : Char) : Option Char :=
  if c = '"' then some '"'
  else if c = '\\' then some '\\'
  else if c = '/' then some '/'
  else if c = 'b' then some '\x08'
  else if c = 'f' then some '\x0c'
  else if c = 'n' then some '\n'
  else if c = 'r' then some '\x0d'
  else if c = 't' then some '\t'
  else none

/-- Stand-in for a lone surrogate code unit in decoded text.  CPython's
`json.loads` decodes a lone surrogate escape such as `\uD800` to a one-code-
unit `str` (Python strings may carry lone surrogates), but a Lean `Char`
must be a Unicode scalar value, so every lone surrogate decodes to U+FFFD
here.  The collapse of distinct lone surrogates is invisible to the `chat`
handler, which only ever compares parsed text with ASCII literals and tests
its emptiness. -/
def loneSurrogateChar : Char := '\uFFFD'

/-- Read one escape sequence (the part after the backslash), returning the
denoted character and the unconsumed rest, as CPython's `scanstring` does:
a high-surrogate escape joins with an immediately following low-surrogate
escape; otherwise a surrogate escape stands alone (see `loneSurrogateChar`),
with a high surrogate followed by `\u` and non-hex rejected (CPython raises
`Invalid \uXXXX escape` there). -/
def readEscChar : Str → Option (Char × Str)
  | [] => none
  | e :: cs2 =>
    if e = 'u' then
      match readHex4 cs2 with
      | none => none
      | some (n, cs3) =>
        if 0xD800 ≤ n ∧ n ≤ 0xDBFF then
          match cs3 with
          | '\\' :: 'u' :: cs4 =>
            match readHex4 cs4 with
            | none => none
            | some (n2, cs5) =>
              if 0xDC00 ≤ n2 ∧ n2 ≤ 0xDFFF then
                some (Char.ofNat (0x10000 + (n - 0xD800) * 0x400 + (n2 - 0xDC00)), cs5)
              else some (loneSurrogateChar, cs3)
          | _ => some (loneSurrogateChar, cs3)
        else if 0xDC00 ≤ n ∧ n ≤ 0xDFFF then some (loneSurrogateChar, cs3)
        else some (Char.ofNat n, cs3)
    else
      match escTable e with
      | none => none
      | some c2 => some (c2, cs2)

/-- Read a JSON string-literal body (after the opening quote) up to and past
the closing quote. -/
def readStrBody : Nat → Str → Option (Str × Str)
  | 0, _ => none
  | _, [] => none
  | fuel + 1, c :: cs =>
    if c = '"' then some ([], cs)
    else if c = '\\' then
      match readEscChar cs with
      | none => none
      | some (c2, cs2) =>
        match readStrBody fuel cs2 with
        | some (out, rest) => some (c2 :: out, rest)
        | none => none
    else if c.toNat < 0x20 then none
    else
      match readStrBody fuel cs with
      | some (out, rest) => some (c :: out, rest)
      | none => none

def spanDigits : Str → Str × Str
  | [] => ([], [])
  | c :: cs =>
    if isDigitCh c then
      let p := spanDigits cs
      (c :: p.1, p.2)
    else ([], c :: cs)

/-- JSON integer part: `0` or a nonzero digit followed by digits. -/
def readIntPart : Str → Option (Str × Str)
  | [] => none
  | c :: cs =>
    if c = '0' then some (['0'], cs)
    else if isDigitCh c then
      let p := spanDigits cs
      some (c :: p.1, p.2)
    else none

/-- JSON fraction part `(. digits)?`; yields `[]` when absent. -/
def readFracPart : Str → Str × Str
  | '.' :: cs =>
    match spanDigits cs with
    | ([], _) => ([], '.' :: cs)
    | (ds, rest) => ('.' :: ds, rest)
  | s => ([], s)

/-- JSON exponent part `([eE] sign? digits)?`; yields `[]` when absent. -/
def readExpPart : Str → Str × Str
  | [] => ([], [])
  | e :: cs =>
    if e = 'e' ∨ e = 'E' then
      match cs with
      | sgn :: cs2 =>
        if sgn = '+' ∨ sgn = '-' then
          match spanDigits cs2 with
          | ([], _) => ([], e :: cs)
          | (ds, rest) => (e :: sgn :: ds, rest)
        else
          match spanDigits cs with
          | ([], _) => ([], e :: cs)
          | (ds, rest) => (e :: ds, rest)
      | [] => ([], [e])
    else ([], e :: cs)

/-- A JSON number lexeme. -/
def readNumLex (s : Str) : Option (Str × Str) :=
  let p0 := match s with
    | '-' :: cs => (['-'], cs)
    | _ => (([] : Str), s)
  match readIntPart p0.2 with
  | none => none
  | some (ip, s2) =>
    let pf := readFracPart s2
    let pe := readExpPart pf.2
    some (p0.1 ++ ip ++ pf.1 ++ pe.1, pe.2)

/-- Parse the items of a non-empty array (input positioned after `[` or a
comma), using `pv` to parse each element; `fuel` bounds the item count. -/
def parseItemsF (pv : Str → Option (JVal × Str)) : Nat → Str → Option (List JVal × Str)
  | 0, _ => none
  | fuel + 1, s =>
    match pv s with
    | none => none
    | some (v, rest) =>
      match skipWs rest with
      | ',' :: rest2 =>
        match parseItemsF pv fuel rest2 with
        | some (vs, rest3) => some (v :: vs, rest3)
        | none => none
      | ']' :: rest2 => some ([v], rest2)
      | _ => none

/-- Parse the fields of a non-empty object (input positioned after `{` or a
comma), using `pv` to parse each field value; `fuel` bounds the field count. -/
def parseFieldsF (pv : Str → Option (JVal × Str)) : Nat → Str → Option (List (Str × JVal) × Str)
  | 0, _ => none
  | fuel + 1, s =>
    match skipWs s with
    | '"' :: cs =>
      match readStrBody (cs.length + 1) cs with
      | none => none
      | some (key, rest) =>
        match skipWs rest with
        | ':' :: rest2 =>
          match pv rest2 with
          | none => none
          | some (v, rest3) =>
            match skipWs rest3 with
            | ',' :: rest4 =>
              match parseFieldsF pv fuel rest4 with
              | some (fs, rest5) => some ((key, v) :: fs, rest5)
              | none => none
            | '\x7d' :: rest4 => some ([(key, v)], rest4)
            | _ => none
        | _ => none
    | _ => none

/-- Parse one JSON value, returning it and the unconsumed rest; `fuel`
bounds the nesting depth and container sizes. -/
def parseValF : Nat → Str → Option (JVal × Str)
  | 0, _ => none
  | fuel + 1, s =>
    match skipWs s with
    | [] => none
    | c :: cs =>
      if c = '"' then
        match readStrBody (cs.length + 1) cs with
        | some (str, rest) => some (.jstr str, rest)
        | none => none
      else if c = '[' then
        match skipWs cs with
        | ']' :: rest => some (.jarr [], rest)
        | _ =>
          match parseItemsF (parseValF fuel) fuel cs with
          | some (vs, rest) => some (.jarr vs, rest)
          | none => none
      else if c = '\x7b' then
        match skipWs cs with
        | '\x7d' :: rest => some (.jobj [], rest)
        | _ =>
          match parseFieldsF (parseValF fuel) fuel cs with
          | some (fs, rest) => some (.jobj fs, rest)
          | none => none
      else if c = 't' then
        match cs with
        | 'r' :: 'u' :: 'e' :: rest => some (.jbool true, rest)
        | _ => none
      else if c = 'f' then
        match cs with
        | 'a' :: 'l' :: 's' :: 'e' :: rest => some (.jbool false, rest)
        | _ => none
      else if c = 'n' then
        match cs with
        | 'u' :: 'l' :: 'l' :: rest => some (.jnull, rest)
        | _ => none
      else if c = 'N' then
        match cs with
        | 'a' :: 'N' :: rest => some (.jnum "NaN".data, rest)
        | _ => none
      else if c = 'I' then
        match cs with
        | 'n' :: 'f' :: 'i' :: 'n' :: 'i' :: 't' :: 'y' :: rest =>
          some (.jnum "Infinity".data, rest)
        | _ => none
      else if c = '-' then
        match cs with
        | 'I' :: 'n' :: 'f' :: 'i' :: 'n' :: 'i' :: 't' :: 'y' :: rest =>
          some (.jnum "-Infinity".data, rest)
        | _ =>
          match readNumLex ('-' :: cs) with
          | some (lex, rest) => some (.jnum lex, rest)
          | none => none
      else
        match readNumLex (c :: cs) with
        | some (lex, rest) => some (.jnum lex, rest)
        | none => none

/-- `json.loads`: parse one value and require only whitespace after it.
Fuel `s.length + 1` cannot run out, since every level of nesting and every
container element consumes input. -/
def parseJson (s : Str) : Option JVal :=
  match parseValF (s.length + 1) s with
  | some (v, rest) => if (skipWs rest).isEmpty then some v else none
  | none => none

/-- Whether the mantissa of a number lexeme is zero (`0`, `0.00`, `-0.0e5`):
it carries a digit and every digit in it is `0`.  The constant lexemes
`NaN`, `Infinity` and `-Infinity` carry no digit and so are truthy, as the
corresponding Python floats are.  Underflow of tiny nonzero floats to `0.0`
is beyond this model. -/
def numLexIsZero (lex : Str) : Bool :=
  let m := lex.takeWhile (fun c => c ≠ 'e' ∧ c ≠ 'E')
  m.any isDigitCh && m.all (fun c => !(isDigitCh c) || c = '0')

/-- Python truthiness of a parsed JSON value. -/
def jTruthy : JVal → Bool
  | .jstr s => !s.isEmpty
  | .jnum lex => !(numLexIsZero lex)
  | .jbool b => b
  | .jnull => false
  | .jarr l => !l.isEmpty
  | .jobj l => !l.isEmpty

/-- `dict.get(key)` on a parsed object: the last duplicate key wins, as in
`json.loads`. -/
def jGet (v : JVal) (key : Str) : Option JVal :=
  match v with
  | .jobj fs => ((fs.reverse).find? (fun kv => kv.1 == key)).map (fun kv => kv.2)
  | _ => none

/-- `key in dict` on a parsed object. -/
def jHas (v : JVal) (key : Str) : Bool :=
  match v with
  | .jobj fs => fs.any (fun kv => kv.1 == key)
  | _ => false

def isJObj : JVal → Bool
  | .jobj _ => true
  | _ => false

/-- Outcome of the tool body's exception handling: success, `sqlite3.Error`,
or any other exception (agent_tools.py lines 117-122). -/
inductive DbOutcome where
  | ok
  | sqlErr
  | otherErr
deriving DecidableEq, Repr

/-- The string returned by `search_federal_executive_orders`: an error
object on a caught exception, a message object when no documents matched,
the indented document list otherwise. -/
def search_federal_executive_orders (today : Date) (store : List StoreRow) (dbo : DbOutcome)
    (query_keywords : Option Str) (date_range_str : Str) : Str :=
  match dbo with
  | .sqlErr => printKVObj "error".data "A database error occurred.".data
  | .otherErr => printKVObj "error".data "An unexpected error occurred in the tool.".data
  | .ok =>
    let docs := searchDocs today store query_keywords date_range_str
    if docs = [] then
      printKVObj "message".data
        "No relevant executive orders found matching your criteria in the database.".data
    else printDocsJson docs

/-! ## The orchestrator (`chat` handler, main.py lines 79-259) -/

/-- A message of the rolling conversation history (only `role`/`content`
pairs are ever appended to `chat_history`). -/
structure Msg where
  role : Str
  content : Str
deriving DecidableEq, Repr

/-- One entry of `tool_call_candidates`: `malformed` when the entry is not a
dict or has no `function` key (skipped with `continue`); otherwise the
optional id, the optional function name, and the raw arguments value
(`.get('arguments', {})` supplies an empty dict when absent). -/
inductive Entry where
  | malformed
  | entry (id : Option Str) (name : Option Str) (args : JVal)

/-- The response classification of §4.2: structured tool calls, an embedded
(args-only) tool call recovered from text content, or direct text. -/
inductive Classify where
  | structured (cands : List Entry)
  | embedded (e : Entry)
  | direct (text : Str)

/-- `content_text.removeprefix('<toolcall>').removesuffix('</toolcall>').strip()`,
guarded by `startswith`/`endswith` on the stripped content (main.py 134-136). -/
def stripToolcallWrap (s : Str) : Str :=
  if decide ("<toolcall>".data <+: s) && decide ("</toolcall>".data <:+ s) then
    let t := s.drop 10
    pyStrip (t.take (t.length - 11))
  else s

/-- `parsed.get(key) == lit` for a string literal `lit` (Python `==` against
a string is true only for an equal string value). -/
def jGetIsStr (v : JVal) (key lit : Str) : Bool :=
  match jGet v key with
  | some (.jstr s) => s == lit
  | _ => false

/-- `not parsed.get(key)`: true when the key is absent or its value is falsy. -/
def jGetFalsy (v : JVal) (key : Str) : Bool :=
  match jGet v key with
  | none => true
  | some fv => !(jTruthy fv)

/-- The single tool name offered to the model on every turn
(`ollama_tool_definitions`). -/
def offeredToolNames : List Str := ["search_federal_executive_orders".data]

/-- Response classification, mirroring main.py lines 128-157.  The text of a
direct reply is the (possibly wrapper-stripped) content. -/
def classify (toolCalls : List Entry) (role : Str) (content : Option Str)
    (toolsOffered : List Str) : Classify :=
  if !toolCalls.isEmpty then .structured toolCalls
  else
    match content with
    | some c =>
      if c ≠ [] then
        let c2 := stripToolcallWrap (pyStrip c)
        match parseJson c2 with
        | some v =>
          if isJObj v && jGetIsStr v "type".data "function".data &&
             jHas v "arguments".data && jGetFalsy v "function".data &&
             (!toolsOffered.isEmpty && toolsOffered.length == 1) then
            let name := toolsOffered.headD []
            .embedded (.entry (some ("content_assumed_tool_".data ++ name)) (some name)
              ((jGet v "arguments".data).getD .jnull))
          else .direct c2
        | none => .direct c2
      else
        .direct (if role == "assistant".data then "AI empty response.".data
                 else "AI unexpected response.".data)
    | none =>
      .direct (if role == "assistant".data then "AI empty response.".data
               else "AI unexpected response.".data)

/-- Rendering of a JSON value substituted into reply text.  Only the string
case is reachable from the tool's outputs; for the container shapes Python
would carry a non-string value and fail further downstream. -/
def jDisplay : JVal → Str
  | .jstr s => s
  | .jnum lex => lex
  | .jbool true => "True".data
  | .jbool false => "False".data
  | .jnull => "None".data
  | .jarr _ => "<list>".data
  | .jobj _ => "<dict>".data

/-- `doc.get(key, dflt)` rendered into the markdown block. -/
def jGetStrD (doc : JVal) (key dflt : Str) : Str :=
  match jGet doc key with
  | some w => jDisplay w
  | none => dflt

/-- The four-line markdown block for one document (main.py 206-211). -/
def docMdBlock (doc : JVal) : Str :=
  "- **Title:** ".data ++ jGetStrD doc "title".data "N/A".data ++
  "\n- **Document Number:** ".data ++ jGetStrD doc "document_number".data "N/A".data ++
  "\n- **Publication Date:** ".data ++ jGetStrD doc "publication_date".data "N/A".data ++
  "\n- **Link:** [Read Document](".data ++ jGetStrD doc "html_url".data "#".data ++ ")".data

/-- Blocks joined by the horizontal-rule separator (main.py 212). -/
def formatDocsMd (docs : List JVal) : Str := joinSep "\n---\n".data (docs.map docMdBlock)

/-- The Python-side formatting of the tool's output string (main.py 197-220):
parse as JSON; a dict with a truthy `message` renders the message, a dict
with a truthy `error` renders the error line, a non-empty list renders the
markdown blocks, an empty list the fixed no-results text; anything else the
unusual-response text; a parse failure the invalid-data text. -/
def formatToolOutput (s : Str) : Str :=
  match parseJson s with
  | none => "Error: Tool data invalid.".data
  | some v =>
    if isJObj v && jTruthy ((jGet v "message".data).getD .jnull) then
      jDisplay ((jGet v "message".data).getD .jnull)
    else if isJObj v && jTruthy ((jGet v "error".data).getD .jnull) then
      "Error from tool: ".data ++ jDisplay ((jGet v "error".data).getD .jnull)
    else
      match v with
      | .jarr (x :: xs) => formatDocsMd (x :: xs)
      | .jarr [] => "No executive orders found for the given criteria.".data
      | _ => "Received an unusual response from search.".data

def containsStr (needle hay : Str) : Bool := decide (needle <:+: hay)

/-- The error/empty markers checked before prepending the affirmative
lead-in (main.py 232-239). -/
def errorMarkers : List Str :=
  ["No executive orders found".data, "Error from tool".data,
   "Error: Tool data invalid".data, "System error during".data,
   "Error: Tool call was malformed".data, "Error: Invalid arguments for tool".data,
   "Error: Tool arguments for".data, "Error: Tool '".data]

/-- The final envelope (main.py 232-242): recognized error/empty text passes
through verbatim, anything else gets the affirmative lead-in. -/
def envelope (formatted : Str) : Str :=
  if errorMarkers.any (fun m => containsStr m formatted) then formatted
  else "Okay, I found the following executive orders based on your request:\n\n".data ++ formatted

def systemErrorText (name : Str) : Str :=
  "System error during ".data ++ name ++ " execution.".data

/-- Result of normalizing `tool_args_raw` (main.py 175-188): a keyword
mapping, a JSON parse failure of a string argument, a parsed non-mapping
(which raises TypeError at the `**` call site, inside the execution `try`),
or a value that is neither string nor dict. -/
inductive ArgNorm where
  | okArgs (kwargs : List (Str × JVal))
  | parseErr
  | nonMapping
  | typeErr

def normalizeArgs : JVal → ArgNorm
  | .jstr s =>
    match parseJson s with
    | none => .parseErr
    | some (.jobj fs) => .okArgs fs
    | some _ => .nonMapping
  | .jobj fs => .okArgs fs
  | _ => .typeErr

/-- A performed tool invocation (the `await asyncio.to_thread(tool, **args)`
actually entered). -/
structure Invocation where
  name : Str
  kwargs : List (Str × JVal)

def allowedKwargKeys : List Str := ["query_keywords".data, "date_range_str".data]

/-- Whether `f(**kwargs)` binds against the tool's two optional keyword
parameters; an unknown key raises TypeError at the call site, before the
tool body runs. -/
def kwargsBind (kwargs : List (Str × JVal)) : Bool :=
  kwargs.all (fun kv => allowedKwargKeys.any (fun k => k == kv.1))

/-- The candidate loop (main.py 163-229): malformed entries are skipped with
`continue`; every other entry ends the loop with `break`.  Returns the list
of performed invocations and the formatted text for the turn. -/
def runCandidates (registry : List Str) (callTool : Str → List (Str × JVal) → Str) :
    List Entry → List Invocation × Str
  | [] => ([], "Error processing tool results.".data)
  | .malformed :: rest => runCandidates registry callTool rest
  | .entry _ nameOpt argsRaw :: _ =>
    match nameOpt with
    | none => ([], "Error: Tool call was malformed (missing name).".data)
    | some name =>
      if name = [] then ([], "Error: Tool call was malformed (missing name).".data)
      else
        match normalizeArgs argsRaw with
        | .parseErr => ([], "Error: Invalid arguments for tool ".data ++ name ++ ".".data)
        | .typeErr =>
          ([], "Error: Tool arguments for ".data ++ name ++ " had an unexpected type.".data)
        | .nonMapping =>
          if registry.any (fun r => r == name) then ([], systemErrorText name)
          else ([], "Error: Tool '".data ++ name ++ "' not available.".data)
        | .okArgs kwargs =>
          if registry.any (fun r => r == name) then
            if kwargsBind kwargs then
              ([⟨name, kwargs⟩], formatToolOutput (callTool name kwargs))
            else ([], systemErrorText name)
          else ([], "Error: Tool '".data ++ name ++ "' not available.".data)

/-- The names in `available_tools`. -/
def availableToolNames : List Str := ["search_federal_executive_orders".data]

/-- Calling the registered search tool with parsed keyword arguments.
A missing key takes the Python default; JSON null for `query_keywords`
behaves like the default `None`; a value of the wrong type raises inside
the tool body and is absorbed by its generic exception handler. -/
def callSearchTool (today : Date) (store : List StoreRow) (dbo : DbOutcome)
    (kwargs : List (Str × JVal)) : Str :=
  let look : Str → Option JVal :=
    fun k => ((kwargs.reverse).find? (fun kv => kv.1 == k)).map (fun kv => kv.2)
  let qk : Option (Option Str) :=
    match look "query_keywords".data with
    | none => some none
    | some .jnull => some none
    | some (.jstr s) => some (some s)
    | some _ => none
  let dr : Option Str :=
    match look "date_range_str".data with
    | none => some "last_7_days".data
    | some (.jstr s) => some s
    | some _ => none
  match qk, dr with
  | some q, some d => search_federal_executive_orders today store dbo q d
  | _, _ => printKVObj "error".data "An unexpected error occurred in the tool.".data

/-- The raw model-backend response message for the turn. -/
structure BackendResp where
  role : Str
  content : Option Str
  toolCalls : List Entry

/-- Append the turn's user and assistant messages and truncate to the most
recent 20 entries (main.py 255-257). -/
def historyStep (hist : List Msg) (u a : Msg) : List Msg :=
  let h2 := hist ++ [u, a]
  if h2.length > 20 then h2.drop (h2.length - 20) else h2

/-- One turn of the `chat` handler: returns the new history and the reply
text.  `clientUp` models whether the Ollama client was initialized; the
backend call is `.error e` when `ollama_client.chat` raises with text `e`. -/
def chat (clientUp : Bool) (today : Date) (store : List StoreRow) (dbo : DbOutcome)
    (hist : List Msg) (user_message : Str) (backend : Except Str BackendResp) :
    List Msg × Str :=
  let callTool := fun (_ : Str) (kw : List (Str × JVal)) => callSearchTool today store dbo kw
  let finalText :=
    if clientUp then
      match backend with
      | .error e => "Unexpected error: ".data ++ e
      | .ok resp =>
        match classify resp.toolCalls resp.role resp.content offeredToolNames with
        | .structured cands => envelope (runCandidates availableToolNames callTool cands).2
        | .embedded e => envelope (runCandidates availableToolNames callTool [e]).2
        | .direct t => t
    else "AI assistant not configured.".data
  (historyStep hist ⟨"user".data, user_message⟩ ⟨"assistant".data, finalText⟩, finalText)

/-! ## Statement-side predicates and concrete scenario data -/

/-- The embedded-classification firing condition, following the spec's
clauses with the one amendment the code forces: the `function` field must be
absent *or falsy* (the code tests truthiness, not presence). -/
def embeddedFires (toolCalls : List Entry) (content : Option Str) (tools : List Str) : Prop :=
  toolCalls = [] ∧ ∃ c v, content = some c ∧ c ≠ [] ∧
    parseJson (stripToolcallWrap (pyStrip c)) = some v ∧
    isJObj v = true ∧ jGetIsStr v "type".data "function".data = true ∧
    jHas v "arguments".data = true ∧ jGetFalsy v "function".data = true ∧
    tools.length = 1

/-- The anchor date used in concrete scenarios. -/
def sampleToday : Date := ⟨2025, 10, 12⟩

/-- A backend response proposing one structured call to the search tool over
the anchor day (no keywords). -/
def sampleSearchResp : BackendResp :=
  ⟨"assistant".data, none,
   [.entry none (some "search_federal_executive_orders".data)
     (.jobj [("query_keywords".data, .jstr []),
             ("date_range_str".data, .jstr "today".data)])]⟩

/-- Embedded-call content carrying a present but falsy `function` field. -/
def c3CexContent : Str :=
  ("\x7b\"type\": \"function\", \"arguments\": \x7b\"query_keywords\": \"climate\"\x7d, \"function\": \"\"\x7d").data

/-- Embedded-call content with no `function` field at all. -/
def c3WitContent : Str :=
  ("\x7b\"type\": \"function\", \"arguments\": \x7b\"query_keywords\": \"climate\"\x7d\x7d").data

/-- A store row whose title contains `50` but not the literal token `50%`. -/
def c5Row : StoreRow :=
  ⟨"EO-50".data, "Presidential Document".data, "50 off".data, "2025-10-12".data, none,
   "https://example.com/50".data⟩

/-- A store row for the amended keyword-filter witness. -/
def c5WitRow : StoreRow :=
  ⟨"EO-C".data, "Presidential Document".data, "Climate Change Order".data, "2025-10-12".data,
   none, "https://example.com/c".data⟩

/-- Two rows of one calendar day, one with a time-of-day suffix. -/
def c6RowA : StoreRow :=
  ⟨"EO-A".data, "Presidential Document".data, "Alpha".data, "2025-10-01 09:15:00".data, none,
   "https://example.com/a".data⟩

def c6RowB : StoreRow :=
  ⟨"EO-B".data, "Presidential Document".data, "Beta".data, "2025-10-01".data,
   some "Beta abstract".data, "https://example.com/b".data⟩

/-- A full 20-entry history, for the truncation witness. -/
def c7Hist : List Msg := List.replicate 20 ⟨"user".data, "m".data⟩

/-! # Helper lemmas -/

theorem strLt_irrefl : ∀ a : Str, strLt a a = false := by
  intro a
  induction a with
  | nil => rfl
  | cons c cs ih => simp [strLt, ih]

theorem strLt_asymm : ∀ a b : Str, strLt a b = true → strLt b a = false := by
  intro a
  induction a with
  | nil => intro b h; cases b <;> simp [strLt] at h ⊢
  | cons c cs ih =>
    intro b h
    cases b with
    | nil => simp [strLt] at h
    | cons d ds =>
      simp only [strLt] at h ⊢
      rcases lt_trichotomy c d with hc | hc | hc
      · simp [hc, lt_asymm hc]
      · subst hc
        simp only [lt_irrefl, if_false] at h ⊢
        exact ih ds h
      · simp [hc, lt_asymm hc] at h

theorem strLt_trans : ∀ a b c : Str, strLt a b = true → strLt b c = true → strLt a c = true := by
  intro a
  induction a with
  | nil =>
    intro b c h1 h2
    cases b with
    | nil => simp [strLt] at h1
    | cons d ds =>
      cases c with
      | nil => simp [strLt] at h2
      | cons e es => simp [strLt]
  | cons x xs ih =>
    intro b c h1 h2
    cases b with
    | nil => simp [strLt] at h1
    | cons d ds =>
      cases c with
      | nil => simp [strLt] at h2
      | cons e es =>
        simp only [strLt] at h1 h2 ⊢
        rcases lt_trichotomy x d with hxd | hxd | hxd <;>
          rcases lt_trichotomy d e with hde | hde | hde
        · simp [lt_trans hxd hde, lt_asymm (lt_trans hxd hde)]
        · subst hde; simp [hxd, lt_asymm hxd]
        · simp [hde, lt_asymm hde] at h2
        · subst hxd; simp [hde, lt_asymm hde]
        · subst hxd; subst hde
          simp only [lt_irrefl, if_false] at h1 h2 ⊢
          exact ih ds es h1 h2
        · simp [hde, lt_asymm hde] at h2
        · simp [hxd, lt_asymm hxd] at h1
        · simp [hxd, lt_asymm hxd] at h1
        · simp [hxd, lt_asymm hxd] at h1

theorem strLt_eq_of_not : ∀ a b : Str, strLt a b = false → strLt b a = false → a = b := by
  intro a
  induction a with
  | nil =>
    intro b h1 h2
    cases b with
    | nil => rfl
    | cons d ds => simp [strLt] at h1
  | cons c cs ih =>
    intro b h1 h2
    cases b with
    | nil => simp [strLt] at h2
    | cons d ds =>
      simp only [strLt] at h1 h2
      rcases lt_trichotomy c d with hc | hc | hc
      · simp [hc] at h1
      · subst hc
        simp only [lt_irrefl, if_false] at h1 h2
        exact congrArg (c :: ·) (ih ds h1 h2)
      · simp [hc, lt_asymm hc] at h2

theorem strLe_total : ∀ a b : Str, (strLe a b || strLe b a) = true := by
  intro a b
  by_cases h : strLt b a = true
  · simp [strLe, strLt_asymm _ _ h]
  · simp [strLe, Bool.not_eq_true] at h
    simp [strLe, h]

theorem strLe_trans : ∀ a b c : Str, strLe a b = true → strLe b c = true →
    strLe a c = true := by
  intro a b c h1 h2
  simp only [strLe, Bool.not_eq_true', Bool.not_eq_true] at h1 h2 ⊢
  by_contra hc
  simp only [Bool.not_eq_false] at hc
  by_cases hab : strLt a b = true
  · exact absurd (strLt_trans _ _ _ hc hab) (by simp [h2])
  · simp only [Bool.not_eq_true] at hab
    have : a = b := strLt_eq_of_not _ _ hab h1
    subst this
    simp [hc] at h2

theorem strLt_of_take_lt : ∀ (n : Nat) (a b : Str),
    strLt (a.take n) (b.take n) = true → strLt a b = true := by
  intro n
  induction n with
  | zero => intro a b h; simp [strLt] at h
  | succ n ih =>
    intro a b h
    cases a with
    | nil =>
      cases b with
      | nil => simp [strLt] at h
      | cons d ds => simp [strLt]
    | cons c cs =>
      cases b with
      | nil => simp [strLt] at h
      | cons d ds =>
        simp only [List.take_succ_cons, strLt] at h ⊢
        rcases lt_trichotomy c d with hc | hc | hc
        · simp [hc]
        · subst hc
          simp only [lt_irrefl, if_false] at h ⊢
          exact ih cs ds h
        · simp [hc, lt_asymm hc] at h

/-! # Claims -/

/-- C4: the Search Tool resolves each `date_range_str` to exactly one
inclusive window anchored at the current date: the five tokens start 0, 1,
6, 29 and 365 days back (the one-day tokens also end there, the span tokens
end at the current date); any other value parsing as `YYYY-MM-DD` is that
single day; any other value silently falls back to the `last_7_days`
window. -/
theorem C4_date_range_resolution :
    (resolveDateRange "today".data = (.rel 0, .rel 0) ∧
     resolveDateRange "yesterday".data = (.rel 1, .rel 1) ∧
     resolveDateRange "last_7_days".data = (.rel 6, .rel 0) ∧
     resolveDateRange "last_30_days".data = (.rel 29, .rel 0) ∧
     resolveDateRange "last_year".data = (.rel 365, .rel 0)) ∧
    (∀ (s : Str) (dt : Date), parseYMD s = some dt →
      resolveDateRange s = (.abs dt, .abs dt)) ∧
    (∀ s : Str, s ≠ "today".data → s ≠ "yesterday".data → s ≠ "last_7_days".data →
      s ≠ "last_30_days".data → s ≠ "last_year".data → parseYMD s = none →
      resolveDateRange s = resolveDateRange "last_7_days".data) := by
  refine ⟨by decide, ?_, ?_⟩
  · intro s dt h
    have h1 : s ≠ "today".data := by rintro rfl; rw [show parseYMD "today".data = none from by decide] at h; cases h
    have h2 : s ≠ "yesterday".data := by rintro rfl; rw [show parseYMD "yesterday".data = none from by decide] at h; cases h
    have h3 : s ≠ "last_7_days".data := by rintro rfl; rw [show parseYMD "last_7_days".data = none from by decide] at h; cases h
    have h4 : s ≠ "last_30_days".data := by rintro rfl; rw [show parseYMD "last_30_days".data = none from by decide] at h; cases h
    have h5 : s ≠ "last_year".data := by rintro rfl; rw [show parseYMD "last_year".data = none from by decide] at h; cases h
    simp [resolveDateRange, h1, h2, h3, h4, h5, h]
  · intro s h1 h2 h3 h4 h5 h
    simp [resolveDateRange, h1, h2, h3, h4, h5, h]

/-- Witness for C4 at the concrete inputs `2024-02-29` (a parseable leap
date) and `not_a_date` (unrecognized, hence the `last_7_days` fallback). -/
theorem C4_date_range_resolution_witness :
    resolveDateRange "2024-02-29".data = (.abs ⟨2024, 2, 29⟩, .abs ⟨2024, 2, 29⟩) ∧
    resolveDateRange "not_a_date".data = resolveDateRange "last_7_days".data :=
  ⟨C4_date_range_resolution.2.1 "2024-02-29".data ⟨2024, 2, 29⟩ (by decide),
   C4_date_range_resolution.2.2 "not_a_date".data (by decide) (by decide) (by decide)
     (by decide) (by decide) (by decide)⟩

/-- C7: after every completed turn the history holds at most 20 entries;
when appending the turn's two messages stays within 20 nothing is discarded;
when it exceeds 20, exactly the most recent 20 entries are retained in
order (the length-20 suffix of the appended history). -/
theorem C7_history_truncation :
    (∀ (h : List Msg) (u a : Msg), (historyStep h u a).length ≤ 20) ∧
    (∀ (h : List Msg) (u a : Msg), (h ++ [u, a]).length ≤ 20 →
      historyStep h u a = h ++ [u, a]) ∧
    (∀ (h : List Msg) (u a : Msg), (h ++ [u, a]).length > 20 →
      historyStep h u a = (h ++ [u, a]).drop ((h ++ [u, a]).length - 20) ∧
      (historyStep h u a).length = 20 ∧ historyStep h u a <:+ (h ++ [u, a])) := by
  refine ⟨?_, ?_, ?_⟩
  · intro h u a
    by_cases hc : (h ++ [u, a]).length > 20
    · simp only [historyStep, if_pos hc, List.length_drop]
      omega
    · simp only [historyStep, if_neg hc]
      omega
  · intro h u a hle
    have hc : ¬ (h ++ [u, a]).length > 20 := by omega
    simp only [historyStep, if_neg hc]
  · intro h u a hgt
    refine ⟨by simp only [historyStep, if_pos hgt], ?_, ?_⟩
    · simp only [historyStep, if_pos hgt, List.length_drop]
      omega
    · simp only [historyStep, if_pos hgt]
      exact List.drop_suffix _ _

/-- Witness for C7 at a full 20-entry history: appending the 21st and 22nd
messages leaves exactly 20 entries, the suffix of the appended list. -/
theorem C7_history_truncation_witness :
    historyStep c7Hist ⟨"user".data, "u21".data⟩ ⟨"assistant".data, "a22".data⟩ =
      (c7Hist ++ [(⟨"user".data, "u21".data⟩ : Msg), ⟨"assistant".data, "a22".data⟩]).drop 2 ∧
    (historyStep c7Hist ⟨"user".data, "u21".data⟩ ⟨"assistant".data, "a22".data⟩).length = 20 := by
  have h := (C7_history_truncation.2.2 c7Hist ⟨"user".data, "u21".data⟩
    ⟨"assistant".data, "a22".data⟩ (by decide))
  exact ⟨h.1, h.2.1⟩

/-- C8: whenever the model response carries structured tool-call entries,
classification takes the structured path, whatever the text content. -/
theorem C8_structured_precedence :
    ∀ (tcs : List Entry) (role : Str) (content : Option Str) (tools : List Str),
      tcs ≠ [] → classify tcs role content tools = .structured tcs := by
  intro tcs role content tools h
  cases tcs with
  | nil => exact absurd rfl h
  | cons e es => simp [classify]

/-- Witness for C8: a response with both a structured entry and text content
classifies as structured. -/
theorem C8_structured_precedence_witness :
    classify [.malformed] "assistant".data (some "hello".data) offeredToolNames =
      .structured [.malformed] :=
  C8_structured_precedence [.malformed] "assistant".data (some "hello".data)
    offeredToolNames (by simp)

/-- C2 counterexample: with the Model Backend raising an exception whose
text is `boom`, the turn's reply is `Unexpected error: boom` — the
exception's own text appears verbatim in the user-visible reply (main.py
line 250 interpolates the exception into the reply), refuting the claim
that it never does. -/
theorem C2_counterexample :
    (chat true sampleToday [] .ok [] "hi".data (.error "boom".data)).2 =
      "Unexpected error: boom".data ∧
    "boom".data <:+: (chat true sampleToday [] .ok [] "hi".data (.error "boom".data)).2 := by
  exact ⟨by decide, by decide⟩

/-- C2 amended: a Model Backend exception with text `e` is not propagated —
the turn still completes, appending to history and returning a reply — but
the reply is `Unexpected error: ` followed by the exception text itself,
which is therefore included verbatim. -/
theorem C2_amended_backend_error :
    ∀ (today : Date) (store : List StoreRow) (dbo : DbOutcome) (hist : List Msg)
      (u e : Str),
      chat true today store dbo hist u (.error e) =
        (historyStep hist ⟨"user".data, u⟩
           ⟨"assistant".data, "Unexpected error: ".data ++ e⟩,
         "Unexpected error: ".data ++ e) := by
  intro today store dbo hist u e
  rfl

set_option maxRecDepth 4000 in
/-- C1 (code bug): on an empty search result the tool returns the message
`No relevant executive orders found matching your criteria in the
database.`; the orchestrator's lead-in guard looks for the marker
`No executive orders found`, which that message does not contain, so the
affirmative lead-in is prepended and the reply is never the exact sentence
`No executive orders found for the given criteria.` (main.py line 214, the
only producer of that sentence, requires an empty JSON list, which the tool
never returns). -/
theorem C1_empty_result_reply :
    (chat true sampleToday [] .ok [] "any".data (.ok sampleSearchResp)).2 =
      ("Okay, I found the following executive orders based on your request:\n\n".data ++
        "No relevant executive orders found matching your criteria in the database.".data) ∧
    (chat true sampleToday [] .ok [] "any".data (.ok sampleSearchResp)).2 ≠
      "No executive orders found for the given criteria.".data := by
  exact ⟨by decide, by decide⟩

/-- C9: the candidate loop performs at most one tool invocation per turn,
and when the head entry is a well-formed ToolCallRequest (it carries a
`function` member) the loop's outcome is that of the first entry alone —
the remaining proposed calls are never invoked. -/
theorem C9_single_tool_execution :
    ∀ (registry : List Str) (callTool : Str → List (Str × JVal) → Str) (cands : List Entry),
      ((runCandidates registry callTool cands).1.length ≤ 1) ∧
      (∀ (e : Entry) (rest : List Entry), cands = e :: rest → e ≠ .malformed →
        runCandidates registry callTool cands = runCandidates registry callTool [e]) := by
  intro registry callTool cands
  constructor
  · induction cands with
    | nil => simp [runCandidates]
    | cons e rest ih =>
      cases e with
      | malformed => simpa [runCandidates] using ih
      | entry i n a =>
        simp only [runCandidates]
        repeat' split
        all_goals simp
  · intro e rest hc hne
    subst hc
    cases e with
    | malformed => exact absurd rfl hne
    | entry i n a => rfl

/-- Witness for C9: with two well-formed entries the loop's outcome equals
that of the first entry alone, and at most one invocation occurs. -/
theorem C9_single_tool_execution_witness :
    (runCandidates availableToolNames (fun _ _ => ('[' :: ']' :: []))
        [.entry none (some ['a']) (.jobj []),
         .entry none (some ['b']) (.jobj [])]).1.length ≤ 1 ∧
    runCandidates availableToolNames (fun _ _ => ('[' :: ']' :: []))
        [.entry none (some ['a']) (.jobj []),
         .entry none (some ['b']) (.jobj [])] =
      runCandidates availableToolNames (fun _ _ => ('[' :: ']' :: []))
        [.entry none (some ['a']) (.jobj [])] :=
  ⟨(C9_single_tool_execution availableToolNames _ _).1,
   (C9_single_tool_execution availableToolNames _ _).2 _ _ rfl
     (by intro h; exact Entry.noConfusion h)⟩

/-- C3 counterexample: this content's JSON carries a `function` field (with
the falsy value `""`), so by the claim the embedded classification must not
fire; the code tests `not parsed.get('function')` — truthiness, not
presence — and the classification fires anyway, building the synthetic
request. -/
theorem C3_counterexample :
    (∃ v, parseJson (stripToolcallWrap (pyStrip c3CexContent)) = some v ∧
      jHas v "function".data = true) ∧
    classify [] "assistant".data (some c3CexContent) offeredToolNames =
      .embedded (.entry (some "content_assumed_tool_search_federal_executive_orders".data)
        (some "search_federal_executive_orders".data)
        (.jobj [("query_keywords".data, .jstr "climate".data)])) := by
  constructor
  · exact ⟨.jobj [("type".data, .jstr "function".data),
                  ("arguments".data, .jobj [("query_keywords".data, .jstr "climate".data)]),
                  ("function".data, .jstr [])], by rfl, by rfl⟩
  · rfl

/-- C3 amended: with no structured tool calls, the embedded classification
fires iff the non-empty content — wrapper-stripped and trimmed — parses as
a JSON object with `type == "function"`, a present `arguments` member, a
`function` member that is absent *or falsy* (amendment: the code tests
truthiness, not presence), while exactly one tool was offered; when it
fires, the synthetic ToolCallRequest targets the sole offered tool and
carries the parsed arguments. -/
theorem C3_amended_embedded_classification :
    ∀ (role : Str) (content : Option Str) (tools : List Str),
      ((∃ e, classify [] role content tools = .embedded e) ↔
        embeddedFires [] content tools) ∧
      (∀ (c : Str) (v : JVal), content = some c → c ≠ [] →
        parseJson (stripToolcallWrap (pyStrip c)) = some v →
        isJObj v = true → jGetIsStr v "type".data "function".data = true →
        jHas v "arguments".data = true → jGetFalsy v "function".data = true →
        tools.length = 1 →
        classify [] role content tools =
          .embedded (.entry (some ("content_assumed_tool_".data ++ tools.headD []))
            (some (tools.headD [])) ((jGet v "arguments".data).getD .jnull))) := by
  intro role content tools
  have hred : ∀ (c : Str), c ≠ [] →
      classify [] role (some c) tools =
        (match parseJson (stripToolcallWrap (pyStrip c)) with
         | some v =>
           if (isJObj v && jGetIsStr v "type".data "function".data &&
               jHas v "arguments".data && jGetFalsy v "function".data &&
               (!tools.isEmpty && tools.length == 1)) = true then
             .embedded (.entry (some ("content_assumed_tool_".data ++ tools.headD []))
               (some (tools.headD [])) ((jGet v "arguments".data).getD .jnull))
           else .direct (stripToolcallWrap (pyStrip c))
         | none => .direct (stripToolcallWrap (pyStrip c))) := by
    intro c hne
    simp only [classify]
    rw [if_neg (by decide), if_pos hne]
  have hfire : ∀ (c : Str) (v : JVal), c ≠ [] →
      parseJson (stripToolcallWrap (pyStrip c)) = some v →
      isJObj v = true → jGetIsStr v "type".data "function".data = true →
      jHas v "arguments".data = true → jGetFalsy v "function".data = true →
      tools.length = 1 →
      classify [] role (some c) tools =
        .embedded (.entry (some ("content_assumed_tool_".data ++ tools.headD []))
          (some (tools.headD [])) ((jGet v "arguments".data).getD .jnull)) := by
    intro c v hne hp h1 h2 h3 h4 h5
    have htools : tools.isEmpty = false := by
      cases tools with
      | nil => simp at h5
      | cons t ts => rfl
    rw [hred c hne]
    simp only [hp]
    rw [if_pos (by simp [h1, h2, h3, h4, h5, htools])]
  constructor
  · constructor
    · rintro ⟨e, he⟩
      cases content with
      | none => simp [classify] at he
      | some c =>
        by_cases hne : c = []
        · subst hne; simp [classify] at he
        · rw [hred c hne] at he
          cases hp : parseJson (stripToolcallWrap (pyStrip c)) with
          | none => simp only [hp] at he; exact Classify.noConfusion he
          | some v =>
            simp only [hp] at he
            by_cases hcond : (isJObj v && jGetIsStr v "type".data "function".data &&
                jHas v "arguments".data && jGetFalsy v "function".data &&
                (!tools.isEmpty && tools.length == 1)) = true
            · simp only [Bool.and_eq_true, beq_iff_eq] at hcond
              exact ⟨rfl, c, v, rfl, hne, hp, hcond.1.1.1.1, hcond.1.1.1.2,
                hcond.1.1.2, hcond.1.2, hcond.2.2⟩
            · rw [if_neg hcond] at he
              exact Classify.noConfusion he
    · rintro ⟨-, c, v, hc, hne, hp, h1, h2, h3, h4, h5⟩
      subst hc
      exact ⟨_, hfire c v hne hp h1 h2 h3 h4 h5⟩
  · intro c v hc hne hp h1 h2 h3 h4 h5
    subst hc
    exact hfire c v hne hp h1 h2 h3 h4 h5

/-- Witness for C3 at content with no `function` field: the classification
fires and builds the synthetic request for the sole offered tool with the
parsed arguments. -/
theorem C3_amended_witness :
    classify [] "assistant".data (some c3WitContent) offeredToolNames =
      .embedded (.entry (some "content_assumed_tool_search_federal_executive_orders".data)
        (some "search_federal_executive_orders".data)
        (.jobj [("query_keywords".data, .jstr "climate".data)])) := by
  have h := (C3_amended_embedded_classification "assistant".data (some c3WitContent)
      offeredToolNames).2 c3WitContent
      (.jobj [("type".data, .jstr "function".data),
              ("arguments".data, .jobj [("query_keywords".data, .jstr "climate".data)])])
      rfl (by decide) (by rfl) (by rfl) (by rfl) (by rfl) (by rfl) (by rfl)
  exact h

theorem likeMatchF_stable : ∀ (f : Nat), ∀ (p s : Str) (g : Nat),
    p.length + s.length < f → p.length + s.length < g →
    likeMatchF f p s = likeMatchF g p s := by
  intro f
  induction f with
  | zero => intro p s g hf; omega
  | succ f ih =>
    intro p s g hf hg
    cases g with
    | zero => omega
    | succ g =>
      cases p with
      | nil => simp [likeMatchF]
      | cons c ps =>
        simp only [likeMatchF]
        simp only [List.length_cons] at hf hg
        by_cases hc : c = '%'
        · rw [if_pos hc, if_pos hc]
          have h1 : likeMatchF f ps s = likeMatchF g ps s := ih ps s g (by omega) (by omega)
          cases s with
          | nil => rw [h1]
          | cons d s2 =>
            have h2 : likeMatchF f (c :: ps) s2 = likeMatchF g (c :: ps) s2 :=
              ih (c :: ps) s2 g (by simp at hf ⊢; omega) (by simp at hg ⊢; omega)
            simp only [h1, h2]
        · rw [if_neg hc, if_neg hc]
          cases s with
          | nil => rfl
          | cons d s2 =>
            have h2 : likeMatchF f ps s2 = likeMatchF g ps s2 :=
              ih ps s2 g (by simp at hf ⊢; omega) (by simp at hg ⊢; omega)
            by_cases hu : c = '_'
            · simp only [if_pos hu, h2]
            · simp only [if_neg hu, h2]

/-- `likeMatchF` with any sufficient fuel computes `likeMatch`. -/
theorem likeMatch_eq_fuel (f : Nat) (p s : Str) (h : p.length + s.length < f) :
    likeMatchF f p s = likeMatch p s :=
  likeMatchF_stable f p s (p.length + s.length + 1) h (by omega)

theorem likeMatch_empty_pat (s : Str) : likeMatch [] s = s.isEmpty := rfl

theorem likeMatch_pct_empty (p : Str) : likeMatch ('%' :: p) [] = likeMatch p [] := by
  show (likeMatchF (p.length + 1 + 0) p [] || false) = likeMatch p []
  rw [likeMatch_eq_fuel _ _ _ (by simp only [List.length_nil]; omega)]
  exact Bool.or_false _

theorem likeMatch_pct_cons (p : Str) (d : Char) (s2 : Str) :
    likeMatch ('%' :: p) (d :: s2) = (likeMatch p (d :: s2) || likeMatch ('%' :: p) s2) := by
  show (likeMatchF (p.length + 1 + (s2.length + 1)) p (d :: s2) ||
        likeMatchF (p.length + 1 + (s2.length + 1)) ('%' :: p) s2) = _
  rw [likeMatch_eq_fuel _ _ _ (by simp only [List.length_cons]; omega),
    likeMatch_eq_fuel _ _ _ (by simp only [List.length_cons]; omega)]

theorem likeMatch_lit_empty (c : Char) (ps : Str) (hc : ¬ c = '%') :
    likeMatch (c :: ps) [] = false := by
  show (if c = '%' then likeMatchF (ps.length + 1 + 0) ps [] || false else false) = false
  rw [if_neg hc]

theorem likeMatch_lit_cons (c : Char) (ps : Str) (d : Char) (s2 : Str)
    (hc : ¬ c = '%') (hu : ¬ c = '_') :
    likeMatch (c :: ps) (d :: s2) = ((c == d) && likeMatch ps s2) := by
  show (if c = '%' then
          likeMatchF (ps.length + 1 + (s2.length + 1)) ps (d :: s2) ||
            likeMatchF (ps.length + 1 + (s2.length + 1)) (c :: ps) s2
        else if c = '_' then likeMatchF (ps.length + 1 + (s2.length + 1)) ps s2
        else (c == d) && likeMatchF (ps.length + 1 + (s2.length + 1)) ps s2) = _
  rw [if_neg hc, if_neg hu, likeMatch_eq_fuel _ _ _ (by omega)]

/-- `%p` matches `s` iff some suffix of `s` matches `p`. -/
theorem likeMatch_pct_iff : ∀ (p s : Str),
    likeMatch ('%' :: p) s = true ↔ ∃ u v, s = u ++ v ∧ likeMatch p v = true := by
  intro p s
  induction s with
  | nil =>
    rw [likeMatch_pct_empty]
    constructor
    · intro h; exact ⟨[], [], rfl, h⟩
    · rintro ⟨u, v, huv, hv⟩
      rcases List.append_eq_nil.mp huv.symm with ⟨rfl, rfl⟩
      exact hv
  | cons a s2 ih =>
    rw [likeMatch_pct_cons]
    simp only [Bool.or_eq_true]
    constructor
    · rintro (h | h)
      · exact ⟨[], a :: s2, rfl, h⟩
      · rcases ih.mp h with ⟨u, v, huv, hv⟩
        exact ⟨a :: u, v, by rw [huv, List.cons_append], hv⟩
    · rintro ⟨u, v, huv, hv⟩
      cases u with
      | nil =>
        left
        rw [List.nil_append] at huv
        subst huv
        exact hv
      | cons x u2 =>
        right
        rw [List.cons_append] at huv
        injection huv with h1 h2
        exact ih.mpr ⟨u2, v, h2, hv⟩

/-- A wildcard-free pattern followed by `%` matches `v` iff the pattern is a
prefix of `v`. -/
theorem likeMatch_lit_prefix : ∀ (kw : Str), (∀ c ∈ kw, ¬ c = '%' ∧ ¬ c = '_') →
    ∀ (v : Str), (likeMatch (kw ++ ['%']) v = true ↔ kw <+: v) := by
  intro kw
  induction kw with
  | nil =>
    intro _ v
    simp only [List.nil_append]
    constructor
    · intro _; exact List.nil_prefix
    · intro _
      rw [likeMatch_pct_iff]
      exact ⟨v, [], by simp, rfl⟩
  | cons c kw2 ih =>
    intro hmeta v
    have hc : ¬ c = '%' ∧ ¬ c = '_' := hmeta c (by simp)
    rw [List.cons_append]
    cases v with
    | nil =>
      rw [likeMatch_lit_empty c _ hc.1]
      simp
    | cons d v2 =>
      rw [likeMatch_lit_cons c _ d v2 hc.1 hc.2]
      simp only [Bool.and_eq_true, beq_iff_eq]
      rw [ih (fun x hx => hmeta x (by simp [hx])) v2, List.cons_prefix_cons]

/-- The spliced pattern `%kw%` with a wildcard-free `kw` matches `s` iff
`kw` occurs in `s` as a substring. -/
theorem likeMatch_substring : ∀ (kw : Str), (∀ c ∈ kw, ¬ c = '%' ∧ ¬ c = '_') →
    ∀ (s : Str), (likeMatch ('%' :: (kw ++ ['%'])) s = true ↔ kw <:+: s) := by
  intro kw hmeta s
  rw [likeMatch_pct_iff]
  constructor
  · rintro ⟨u, v, rfl, hv⟩
    rcases ( likeMatch_lit_prefix kw hmeta v).mp hv with ⟨w, rfl⟩
    exact ⟨u, w, by simp⟩
  · rintro ⟨x, y, hxy⟩
    refine ⟨x, kw ++ y, by rw [← hxy]; simp, ?_⟩
    exact ( likeMatch_lit_prefix kw hmeta (kw ++ y)).mpr ⟨y, rfl⟩

/-- One keyword token hits a row iff it occurs in the lowercased title or
(when present) the lowercased abstract. -/
theorem tokenLikeHit_iff : ∀ (t : Str) (r : StoreRow), (∀ c ∈ t, ¬ c = '%' ∧ ¬ c = '_') →
    (tokenLikeHit t r = true ↔
      t <:+: lowerStr r.title ∨ ∃ a, r.abstract = some a ∧ t <:+: lowerStr a) := by
  intro t r hmeta
  unfold tokenLikeHit
  rw [Bool.or_eq_true, likeMatch_substring t hmeta]
  cases habs : r.abstract with
  | none => simp
  | some a => simp [likeMatch_substring t hmeta]

/-- C5 amended: for a non-blank keyword string all of whose
whitespace-split lowercased tokens are free of the SQL LIKE wildcards `%`
and `_`, the filter accepts a row iff it passes the type and date filters
and some token occurs as a substring of the lowercased title or abstract
(disjunction across tokens); and a blank keyword string applies no keyword
filter.  (Amendment: tokens are spliced into SQL LIKE patterns `%token%`,
so `%` and `_` inside a token act as wildcards rather than literal
substring characters; the claim's substring reading holds exactly for
wildcard-free tokens.) -/
theorem C5_amended_keyword_filter :
    (∀ (startS endS q : Str) (r : StoreRow),
      (∀ t ∈ kwTokens q, ∀ c ∈ t, ¬ c = '%' ∧ ¬ c = '_') →
      (rowMatches startS endS (some q) r = true ↔
        (r.document_type = "Presidential Document".data ∧
         strLe startS (r.publication_date.take 10) = true ∧
         strLe (r.publication_date.take 10) endS = true ∧
         (q ≠ [] ∧ pyStrip q ≠ [] →
           ∃ t ∈ kwTokens q, t <:+: lowerStr r.title ∨
             ∃ a, r.abstract = some a ∧ t <:+: lowerStr a)))) ∧
    (∀ (startS endS q : Str) (r : StoreRow), pyStrip q = [] →
      rowMatches startS endS (some q) r = rowMatches startS endS none r) := by
  constructor
  · intro startS endS q r hmeta
    simp only [rowMatches]
    by_cases hcond : q ≠ [] ∧ pyStrip q ≠ []
    · rw [if_pos hcond]
      simp only [Bool.and_eq_true, beq_iff_eq, List.any_eq_true]
      constructor
      · rintro ⟨⟨hdt, hd1, hd2⟩, t, ht, hhit⟩
        exact ⟨hdt, hd1, hd2, fun _ => ⟨t, ht, (tokenLikeHit_iff t r (hmeta t ht)).mp hhit⟩⟩
      · rintro ⟨hdt, hd1, hd2, himp⟩
        rcases himp hcond with ⟨t, ht, hcase⟩
        exact ⟨⟨hdt, hd1, hd2⟩, t, ht, (tokenLikeHit_iff t r (hmeta t ht)).mpr hcase⟩
    · rw [if_neg hcond]
      simp only [Bool.and_eq_true, beq_iff_eq, Bool.and_true]
      constructor
      · rintro ⟨hdt, hd1, hd2⟩
        exact ⟨hdt, hd1, hd2, fun hx => absurd hx hcond⟩
      · rintro ⟨hdt, hd1, hd2, -⟩
        exact ⟨hdt, hd1, hd2⟩
  · intro startS endS q r hq
    simp only [rowMatches]
    rw [if_neg (by simp [hq])]

/-- Witness for C5: the wildcard-free tokens of `climate POLICY` hit the
row titled `Climate Change Order` through the `climate` token,
case-insensitively. -/
theorem C5_amended_keyword_filter_witness :
    rowMatches "2025-10-12".data "2025-10-12".data (some "climate POLICY".data) c5WitRow = true :=
  (C5_amended_keyword_filter.1 "2025-10-12".data "2025-10-12".data
      "climate POLICY".data c5WitRow (by decide)).mpr
    ⟨by decide, by decide, by decide,
     fun _ => ⟨"climate".data, by decide, Or.inl (by decide)⟩⟩

/-- C5 counterexample: with keyword string `50%` (one token, containing the
LIKE wildcard `%`), the search returns the row titled `50 off` even though
`50%` is not a substring of its title and it has no abstract — refuting the
claim's `accepts if and only if some token is a substring`. -/
theorem C5_counterexample :
    searchDocs sampleToday [c5Row] (some ('5' :: '0' :: '%' :: [])) "today".data =
      [postProcess c5Row] ∧
    kwTokens ('5' :: '0' :: '%' :: []) = [('5' :: '0' :: '%' :: [])] ∧
    ¬ (('5' :: '0' :: '%' :: []) <:+: lowerStr c5Row.title) ∧
    c5Row.abstract = none := by
  exact ⟨by decide, by decide, by decide, by decide⟩

theorem insertBy_perm {α : Type} (r : α → α → Bool) (x : α) :
    ∀ l : List α, (insertBy r x l).Perm (x :: l) := by
  intro l
  induction l with
  | nil => exact List.Perm.refl _
  | cons y ys ih =>
    simp only [insertBy]
    split
    · exact List.Perm.refl _
    · exact (ih.cons y).trans (List.Perm.swap x y ys)

theorem sortBy_perm {α : Type} (r : α → α → Bool) :
    ∀ l : List α, (sortBy r l).Perm l := by
  intro l
  induction l with
  | nil => exact List.Perm.refl _
  | cons x xs ih => exact (insertBy_perm r x (sortBy r xs)).trans (ih.cons x)

theorem pairwise_insertBy {α : Type} (r : α → α → Bool)
    (htot : ∀ a b, (r a b || r b a) = true)
    (htr : ∀ a b c, r a b = true → r b c = true → r a c = true) (x : α) :
    ∀ l : List α, l.Pairwise (fun a b => r a b = true) →
      (insertBy r x l).Pairwise (fun a b => r a b = true) := by
  intro l
  induction l with
  | nil => intro _; simp [insertBy]
  | cons y ys ih =>
    intro hp
    rcases List.pairwise_cons.mp hp with ⟨hy, hys⟩
    simp only [insertBy]
    split
    · rename_i hxy
      refine List.pairwise_cons.mpr ⟨?_, hp⟩
      intro z hz
      rcases List.mem_cons.mp hz with rfl | hz2
      · exact hxy
      · exact htr x y z hxy (hy z hz2)
    · rename_i hxy
      have hyx : r y x = true := by
        have h0 := htot x y
        simp only [Bool.or_eq_true] at h0
        rcases h0 with h | h
        · exact absurd h hxy
        · exact h
      refine List.pairwise_cons.mpr ⟨?_, ih hys⟩
      intro z hz
      rcases ((insertBy_perm r x ys).mem_iff).mp hz with h2
      rcases List.mem_cons.mp h2 with rfl | hz3
      · exact hyx
      · exact hy z hz3

theorem pairwise_sortBy {α : Type} (r : α → α → Bool)
    (htot : ∀ a b, (r a b || r b a) = true)
    (htr : ∀ a b c, r a b = true → r b c = true → r a c = true) :
    ∀ l : List α, (sortBy r l).Pairwise (fun a b => r a b = true) := by
  intro l
  induction l with
  | nil => simp [sortBy]
  | cons x xs ih => exact pairwise_insertBy r htot htr x (sortBy r xs) ih

theorem rowDescLe_total : ∀ a b : StoreRow, (rowDescLe a b || rowDescLe b a) = true := by
  intro a b
  exact strLe_total b.publication_date a.publication_date

theorem rowDescLe_trans : ∀ a b c : StoreRow,
    rowDescLe a b = true → rowDescLe b c = true → rowDescLe a c = true := by
  intro a b c h1 h2
  exact strLe_trans c.publication_date b.publication_date a.publication_date h2 h1

theorem strLe_take (n : Nat) (a b : Str) (h : strLe a b = true) :
    strLe (a.take n) (b.take n) = true := by
  simp only [strLe, Bool.not_eq_true'] at h ⊢
  by_contra hc
  simp only [Bool.not_eq_false] at hc
  rw [strLt_of_take_lt n b a hc] at h
  cases h

theorem queryRows_mem_store {startS endS : Str} {kwq : Option Str} {store : List StoreRow}
    {x : StoreRow} (hx : x ∈ queryRows startS endS kwq store) : x ∈ store := by
  have h1 : x ∈ sortBy rowDescLe (store.filter (rowMatches startS endS kwq)) :=
    (List.take_sublist _ _).mem hx
  have h2 : x ∈ store.filter (rowMatches startS endS kwq) :=
    ((sortBy_perm rowDescLe _).mem_iff).mp h1
  exact (List.mem_filter.mp h2).1

/-- The publication date of a post-processed row whose stored date is a
10-character date stamp optionally followed by a space and more text. -/
theorem postProcess_date {r : StoreRow}
    (hw : beforeSpace r.publication_date = r.publication_date.take 10) :
    (postProcess r).publication_date = r.publication_date.take 10 := by
  simp only [postProcess]
  split
  · rename_i h0
    rw [h0]
    rfl
  · exact hw

/-- C6: every list the Search Tool returns has at most 10 entries, and —
for a store whose `publication_date` values are a date stamp up to the
first space in their first 10 characters (the pipeline stores
`YYYY-MM-DD`, optionally with a time-of-day after a space) — the returned
publication dates are non-increasing: for all positions `i < j`,
`date[j] ≤ date[i]` in the date-string order. -/
theorem C6_result_bounded_sorted :
    ∀ (today : Date) (store : List StoreRow) (kw : Option Str) (dr : Str),
      (searchDocs today store kw dr).length ≤ 10 ∧
      ((∀ r ∈ store, beforeSpace r.publication_date = r.publication_date.take 10) →
        ∀ (i j : Fin (searchDocs today store kw dr).length), (i : Nat) < (j : Nat) →
          strLe ((searchDocs today store kw dr).get j).publication_date
            ((searchDocs today store kw dr).get i).publication_date = true) := by
  intro today store kw dr
  constructor
  · simp only [searchDocs, queryRows, List.length_map, List.length_take]
    omega
  · intro hwf
    have hrows : (queryRows (fmtDate (dateValAt today (resolveDateRange dr).1))
        (fmtDate (dateValAt today (resolveDateRange dr).2)) kw store).Pairwise
        (fun a b => rowDescLe a b = true) :=
      List.Pairwise.sublist (List.take_sublist _ _)
        (pairwise_sortBy rowDescLe rowDescLe_total rowDescLe_trans _)
    have hout : (searchDocs today store kw dr).Pairwise
        (fun d1 d2 => strLe d2.publication_date d1.publication_date = true) := by
      have hrows2 := hrows.imp_of_mem (S := fun a b =>
          strLe (postProcess b).publication_date (postProcess a).publication_date = true)
        (fun {a b} ha hb hab => by
          show strLe (postProcess b).publication_date (postProcess a).publication_date = true
          rw [postProcess_date (hwf a (queryRows_mem_store ha)),
            postProcess_date (hwf b (queryRows_mem_store hb))]
          exact strLe_take 10 _ _ hab)
      exact List.pairwise_map.mpr hrows2
    intro i j hij
    exact List.pairwise_iff_get.mp hout i j hij

/-- Witness for C6 at a two-row store of one calendar day, one row carrying
a time-of-day suffix: both returned dates satisfy the ordering, and the
result is within the cap. -/
theorem C6_result_bounded_sorted_witness :
    (searchDocs sampleToday [c6RowA, c6RowB] none ("2025-10-01".data)).length ≤ 10 ∧
    strLe ((searchDocs sampleToday [c6RowA, c6RowB] none ("2025-10-01".data)).get
        ⟨1, by decide⟩).publication_date
      ((searchDocs sampleToday [c6RowA, c6RowB] none ("2025-10-01".data)).get
        ⟨0, by decide⟩).publication_date = true :=
  ⟨(C6_result_bounded_sorted sampleToday [c6RowA, c6RowB] none ("2025-10-01".data)).1,
   (C6_result_bounded_sorted sampleToday [c6RowA, c6RowB] none ("2025-10-01".data)).2
     (by decide) ⟨0, by decide⟩ ⟨1, by decide⟩ (by decide)⟩

theorem parseHexDigit_hexDigitChar : ∀ n : Nat, n < 16 →
    parseHexDigit (hexDigitChar n) = some n := by
  intro n h
  interval_cases n <;> rfl

theorem readHex4_hex4 (n : Nat) (rest : Str) (hn : n < 65536) :
    readHex4 (hex4 n ++ rest) = some (n, rest) := by
  have h1 := parseHexDigit_hexDigitChar (n / 4096 % 16) (by omega)
  have h2 := parseHexDigit_hexDigitChar (n / 256 % 16) (by omega)
  have h3 := parseHexDigit_hexDigitChar (n / 16 % 16) (by omega)
  have h4 := parseHexDigit_hexDigitChar (n % 16) (by omega)
  have harith : n / 4096 % 16 * 4096 + n / 256 % 16 * 256 + n / 16 % 16 * 16 + n % 16 = n := by
    omega
  simp only [hex4, List.cons_append, List.nil_append, readHex4, h1, h2, h3, h4, harith]

theorem char_valid_nat (c : Char) :
    c.toNat < 0xd800 ∨ (0xdfff < c.toNat ∧ c.toNat < 0x110000) := c.valid

theorem escChar_ne_nil (c : Char) : 1 ≤ (escChar c).length := by
  unfold escChar
  repeat' split
  all_goals simp [hex4]

theorem escStr_length_ge : ∀ s : Str, s.length ≤ (escStr s).length := by
  intro s
  induction s with
  | nil => simp [escStr]
  | cons c cs ih =>
    have h := escChar_ne_nil c
    simp only [escStr, List.length_append, List.length_cons]
    omega

theorem escChar_control_eq (c : Char) (h1 : ¬ c = '"') (h2 : ¬ c = '\\') (h3 : ¬ c = '\x08')
    (h4 : ¬ c = '\t') (h5 : ¬ c = '\n') (h6 : ¬ c = '\x0c') (h7 : ¬ c = '\x0d')
    (h8 : c.toNat < 0x20) : escChar c = '\\' :: 'u' :: hex4 c.toNat := by
  unfold escChar
  rw [if_neg h1, if_neg h2, if_neg h3, if_neg h4, if_neg h5, if_neg h6, if_neg h7, if_pos h8]

theorem escChar_plain_eq (c : Char) (h1 : ¬ c = '"') (h2 : ¬ c = '\\') (h3 : ¬ c = '\x08')
    (h4 : ¬ c = '\t') (h5 : ¬ c = '\n') (h6 : ¬ c = '\x0c') (h7 : ¬ c = '\x0d')
    (h8 : ¬ c.toNat < 0x20) (h9 : c.toNat ≤ 0x7e) : escChar c = [c] := by
  unfold escChar
  rw [if_neg h1, if_neg h2, if_neg h3, if_neg h4, if_neg h5, if_neg h6, if_neg h7, if_neg h8,
    if_pos h9]

theorem escChar_bmp_eq (c : Char) (h1 : ¬ c = '"') (h2 : ¬ c = '\\') (h3 : ¬ c = '\x08')
    (h4 : ¬ c = '\t') (h5 : ¬ c = '\n') (h6 : ¬ c = '\x0c') (h7 : ¬ c = '\x0d')
    (h8 : ¬ c.toNat < 0x20) (h9 : ¬ c.toNat ≤ 0x7e) (h10 : c.toNat < 0x10000) :
    escChar c = '\\' :: 'u' :: hex4 c.toNat := by
  unfold escChar
  rw [if_neg h1, if_neg h2, if_neg h3, if_neg h4, if_neg h5, if_neg h6, if_neg h7, if_neg h8,
    if_neg h9, if_pos h10]

theorem escChar_astral_eq (c : Char) (h1 : ¬ c = '"') (h2 : ¬ c = '\\') (h3 : ¬ c = '\x08')
    (h4 : ¬ c = '\t') (h5 : ¬ c = '\n') (h6 : ¬ c = '\x0c') (h7 : ¬ c = '\x0d')
    (h8 : ¬ c.toNat < 0x20) (h9 : ¬ c.toNat ≤ 0x7e) (h10 : ¬ c.toNat < 0x10000) :
    escChar c = ('\\' :: 'u' :: hex4 (0xD800 + (c.toNat - 0x10000) / 0x400)) ++
      ('\\' :: 'u' :: hex4 (0xDC00 + (c.toNat - 0x10000) % 0x400)) := by
  unfold escChar
  rw [if_neg h1, if_neg h2, if_neg h3, if_neg h4, if_neg h5, if_neg h6, if_neg h7, if_neg h8,
    if_neg h9, if_neg h10]

theorem readStrBody_plain_step (c : Char) (t out rest2 : Str) (f : Nat)
    (h1 : ¬ c = '"') (h2 : ¬ c = '\\') (h8 : ¬ c.toNat < 0x20)
    (hr : readStrBody f t = some (out, rest2)) :
    readStrBody (f + 1) (c :: t) = some (c :: out, rest2) := by
  simp only [readStrBody, if_neg h1, if_neg h2, if_neg h8, hr]

theorem readStrBody_esc_step (f : Nat) (t : Str) (c2 : Char) (cs2 out rest2 : Str)
    (hesc : readEscChar t = some (c2, cs2)) (hrec : readStrBody f cs2 = some (out, rest2)) :
    readStrBody (f + 1) ('\\' :: t) = some (c2 :: out, rest2) := by
  simp only [readStrBody, if_neg (show ¬ '\\' = '"' by decide), if_pos rfl, if_true, hesc, hrec]

theorem readEscChar_table (e c2 : Char) (he : escTable e = some c2) (t : Str) :
    readEscChar (e :: t) = some (c2, t) := by
  have hu : ¬ e = 'u' := by
    intro h
    rw [h] at he
    simp [escTable] at he
  simp only [readEscChar, if_neg hu, he]

theorem readEscChar_u_single (n : Nat) (hn : n < 0x10000)
    (h1 : ¬ (0xD800 ≤ n ∧ n ≤ 0xDBFF)) (h2 : ¬ (0xDC00 ≤ n ∧ n ≤ 0xDFFF)) (t : Str) :
    readEscChar ('u' :: (hex4 n ++ t)) = some (Char.ofNat n, t) := by
  simp only [readEscChar, if_pos rfl, if_true, readHex4_hex4 n t hn, if_neg h1, if_neg h2]

theorem readEscChar_u_pair (n : Nat) (hge : 0x10000 ≤ n) (hlt : n < 0x110000) (t : Str) :
    readEscChar ('u' :: (hex4 (0xD800 + (n - 0x10000) / 0x400) ++
        ('\\' :: 'u' :: (hex4 (0xDC00 + (n - 0x10000) % 0x400) ++ t)))) =
      some (Char.ofNat n, t) := by
  have hh1 := readHex4_hex4 (0xD800 + (n - 0x10000) / 0x400)
    ('\\' :: 'u' :: (hex4 (0xDC00 + (n - 0x10000) % 0x400) ++ t)) (by omega)
  have hh2 := readHex4_hex4 (0xDC00 + (n - 0x10000) % 0x400) t (by omega)
  have hp1 : 0xD800 ≤ 0xD800 + (n - 0x10000) / 0x400 ∧
      0xD800 + (n - 0x10000) / 0x400 ≤ 0xDBFF := by omega
  have hp2 : 0xDC00 ≤ 0xDC00 + (n - 0x10000) % 0x400 ∧
      0xDC00 + (n - 0x10000) % 0x400 ≤ 0xDFFF := by omega
  simp only [readEscChar, if_pos rfl, if_true, hh1, if_pos hp1, hh2, if_pos hp2]
  have harith : 0x10000 + (0xD800 + (n - 0x10000) / 0x400 - 0xD800) * 0x400 +
      (0xDC00 + (n - 0x10000) % 0x400 - 0xDC00) = n := by omega
  rw [harith]

/-- The `json.dumps` escape of a string parses back to the string: the
string-literal round trip. -/
theorem readStrBody_escStr : ∀ (s : Str) (fuel : Nat) (rest : Str), s.length < fuel →
    readStrBody fuel (escStr s ++ ('"' :: rest)) = some (s, rest) := by
  intro s
  induction s with
  | nil =>
    intro fuel rest h
    obtain ⟨f, rfl⟩ : ∃ f, fuel = f + 1 := ⟨fuel - 1, by omega⟩
    simp [escStr, readStrBody]
  | cons c cs ih =>
    intro fuel rest h
    obtain ⟨f, rfl⟩ : ∃ f, fuel = f + 1 := ⟨fuel - 1, by omega⟩
    have hrec : readStrBody f (escStr cs ++ ('"' :: rest)) = some (cs, rest) :=
      ih f rest (by simp only [List.length_cons] at h; omega)
    have hvalid := char_valid_nat c
    simp only [escStr, List.append_assoc]
    by_cases h1 : c = '"'
    · subst h1
      exact readStrBody_esc_step f _ _ _ _ _ (readEscChar_table '"' '"' rfl _) hrec
    · by_cases h2 : c = '\\'
      · subst h2
        exact readStrBody_esc_step f _ _ _ _ _ (readEscChar_table '\\' '\\' rfl _) hrec
      · by_cases h3 : c = '\x08'
        · subst h3
          exact readStrBody_esc_step f _ _ _ _ _ (readEscChar_table 'b' '\x08' rfl _) hrec
        · by_cases h4 : c = '\t'
          · subst h4
            exact readStrBody_esc_step f _ _ _ _ _ (readEscChar_table 't' '\t' rfl _) hrec
          · by_cases h5 : c = '\n'
            · subst h5
              exact readStrBody_esc_step f _ _ _ _ _ (readEscChar_table 'n' '\n' rfl _) hrec
            · by_cases h6 : c = '\x0c'
              · subst h6
                exact readStrBody_esc_step f _ _ _ _ _ (readEscChar_table 'f' '\x0c' rfl _) hrec
              · by_cases h7 : c = '\x0d'
                · subst h7
                  exact readStrBody_esc_step f _ _ _ _ _ (readEscChar_table 'r' '\x0d' rfl _) hrec
                · by_cases h8 : c.toNat < 0x20
                  · rw [escChar_control_eq c h1 h2 h3 h4 h5 h6 h7 h8]
                    have hesc := readEscChar_u_single c.toNat (by omega)
                      (by omega) (by omega) (escStr cs ++ '"' :: rest)
                    rw [Char.ofNat_toNat] at hesc
                    simp only [List.cons_append]
                    exact readStrBody_esc_step f _ _ _ _ _ hesc hrec
                  · by_cases h9 : c.toNat ≤ 0x7e
                    · rw [escChar_plain_eq c h1 h2 h3 h4 h5 h6 h7 h8 h9]
                      exact readStrBody_plain_step c _ cs rest f h1 h2 h8 hrec
                    · by_cases h10 : c.toNat < 0x10000
                      · rw [escChar_bmp_eq c h1 h2 h3 h4 h5 h6 h7 h8 h9 h10]
                        have hesc := readEscChar_u_single c.toNat h10
                          (by rcases hvalid with hv | hv <;> omega)
                          (by rcases hvalid with hv | hv <;> omega)
                          (escStr cs ++ '"' :: rest)
                        rw [Char.ofNat_toNat] at hesc
                        simp only [List.cons_append]
                        exact readStrBody_esc_step f _ _ _ _ _ hesc hrec
                      · rw [escChar_astral_eq c h1 h2 h3 h4 h5 h6 h7 h8 h9 h10]
                        have hesc := readEscChar_u_pair c.toNat (by omega)
                          (by rcases hvalid with hv | hv <;> omega)
                          (escStr cs ++ '"' :: rest)
                        rw [Char.ofNat_toNat] at hesc
                        simp only [List.cons_append, List.append_assoc]
                        exact readStrBody_esc_step f _ _ _ _ _ hesc hrec

theorem skipWs_ws_append : ∀ (w t : Str), (∀ c ∈ w, isJsonWs c = true) →
    skipWs (w ++ t) = skipWs t := by
  intro w
  induction w with
  | nil => intro t _; rfl
  | cons c cs ih =>
    intro t hw
    simp only [List.cons_append, skipWs, List.dropWhile_cons, hw c (by simp), if_true]
    exact ih t (fun x hx => hw x (by simp [hx]))

theorem skipWs_not_ws (c : Char) (t : Str) (hc : isJsonWs c = false) :
    skipWs (c :: t) = c :: t := by
  simp only [skipWs, List.dropWhile_cons, hc, Bool.false_eq_true, if_false]

/-- One unfolding step of `parseValF` at positive fuel. -/
theorem parseValF_succ_eq (f : Nat) (s : Str) :
    parseValF (f + 1) s =
    (match skipWs s with
     | [] => none
     | c :: cs =>
       if c = '"' then
         match readStrBody (cs.length + 1) cs with
         | some (str, r2) => some (.jstr str, r2)
         | none => none
       else if c = '[' then
         match skipWs cs with
         | ']' :: r2 => some (.jarr [], r2)
         | _ =>
           match parseItemsF (parseValF f) f cs with
           | some (vs, r2) => some (.jarr vs, r2)
           | none => none
       else if c = '\x7b' then
         match skipWs cs with
         | '\x7d' :: r2 => some (.jobj [], r2)
         | _ =>
           match parseFieldsF (parseValF f) f cs with
           | some (fs, r2) => some (.jobj fs, r2)
           | none => none
       else if c = 't' then
         match cs with
         | 'r' :: 'u' :: 'e' :: r2 => some (.jbool true, r2)
         | _ => none
       else if c = 'f' then
         match cs with
         | 'a' :: 'l' :: 's' :: 'e' :: r2 => some (.jbool false, r2)
         | _ => none
       else if c = 'n' then
         match cs with
         | 'u' :: 'l' :: 'l' :: r2 => some (.jnull, r2)
         | _ => none
       else if c = 'N' then
         match cs with
         | 'a' :: 'N' :: r2 => some (.jnum "NaN".data, r2)
         | _ => none
       else if c = 'I' then
         match cs with
         | 'n' :: 'f' :: 'i' :: 'n' :: 'i' :: 't' :: 'y' :: r2 =>
           some (.jnum "Infinity".data, r2)
         | _ => none
       else if c = '-' then
         match cs with
         | 'I' :: 'n' :: 'f' :: 'i' :: 'n' :: 'i' :: 't' :: 'y' :: r2 =>
           some (.jnum "-Infinity".data, r2)
         | _ =>
           match readNumLex ('-' :: cs) with
           | some (lex, r2) => some (.jnum lex, r2)
           | none => none
       else
         match readNumLex (c :: cs) with
         | some (lex, r2) => some (.jnum lex, r2)
         | none => none) := rfl

/-- One unfolding step of `parseFieldsF` at positive fuel. -/
theorem parseFieldsF_succ_eq (pv : Str → Option (JVal × Str)) (f : Nat) (s : Str) :
    parseFieldsF pv (f + 1) s =
    (match skipWs s with
     | '"' :: cs =>
       match readStrBody (cs.length + 1) cs with
       | none => none
       | some (key, rest) =>
         match skipWs rest with
         | ':' :: rest2 =>
           match pv rest2 with
           | none => none
           | some (v, rest3) =>
             match skipWs rest3 with
             | ',' :: rest4 =>
               match parseFieldsF pv f rest4 with
               | some (fs, rest5) => some ((key, v) :: fs, rest5)
               | none => none
             | '\x7d' :: rest4 => some ([(key, v)], rest4)
             | _ => none
         | _ => none
     | _ => none) := rfl

/-- One unfolding step of `parseItemsF` at positive fuel. -/
theorem parseItemsF_succ_eq (pv : Str → Option (JVal × Str)) (f : Nat) (s : Str) :
    parseItemsF pv (f + 1) s =
    (match pv s with
     | none => none
     | some (v, rest) =>
       match skipWs rest with
       | ',' :: rest2 =>
         match parseItemsF pv f rest2 with
         | some (vs, rest3) => some (v :: vs, rest3)
         | none => none
       | ']' :: rest2 => some ([v], rest2)
       | _ => none) := rfl

/-- Parsing a printed string literal, after any leading whitespace. -/
theorem parseValF_qStr (f : Nat) (w s rest : Str) (hw : ∀ ch ∈ w, isJsonWs ch = true) :
    parseValF (f + 1) (w ++ (qStr s ++ rest)) = some (.jstr s, rest) := by
  have hq : qStr s ++ rest = '"' :: (escStr s ++ ('"' :: rest)) := by
    simp [qStr, List.append_assoc]
  have hb : s.length < (escStr s ++ ('"' :: rest)).length + 1 := by
    have := escStr_length_ge s
    simp only [List.length_append, List.length_cons]
    omega
  rw [parseValF_succ_eq, hq, skipWs_ws_append w _ hw, skipWs_not_ws '"' _ (by decide)]
  simp only [if_pos rfl, if_true, readStrBody_escStr s _ rest hb]

/-- Parsing one printed `"key": "value"` field line: the continuation sees
exactly the text after the value. -/
theorem parseFieldsF_field (pv : Str → Option (JVal × Str))
    (hpv : ∀ (w s r : Str), (∀ ch ∈ w, isJsonWs ch = true) →
      pv (w ++ (qStr s ++ r)) = some (.jstr s, r))
    (g : Nat) (k v T : Str) :
    parseFieldsF pv (g + 1) ('\n' :: (printField (k, v) ++ T)) =
    (match skipWs T with
     | ',' :: rest4 =>
       match parseFieldsF pv g rest4 with
       | some (fs, rest5) => some ((k, JVal.jstr v) :: fs, rest5)
       | none => none
     | '\x7d' :: rest4 => some ([(k, JVal.jstr v)], rest4)
     | _ => none) := by
  have hin : '\n' :: (printField (k, v) ++ T) =
      ('\n' :: ' ' :: ' ' :: ' ' :: ' ' :: []) ++
        ('"' :: (escStr k ++ ('"' :: (':' :: ' ' :: (qStr v ++ T))))) := by
    simp [printField, qStr, List.append_assoc]
  have hb : k.length < (escStr k ++ ('"' :: (':' :: ' ' :: (qStr v ++ T)))).length + 1 := by
    have := escStr_length_ge k
    simp only [List.length_append, List.length_cons]
    omega
  rw [parseFieldsF_succ_eq, hin, skipWs_ws_append _ _ (by decide),
    skipWs_not_ws '"' _ (by decide)]
  simp only [readStrBody_escStr k _ _ hb, skipWs_not_ws ':' _ (by decide)]
  rw [show (' ' :: (qStr v ++ T)) = ([' '] ++ (qStr v ++ T)) from rfl, hpv [' '] v T (by decide)]

/-- Parsing the printed field lines of a non-empty object. -/
theorem parseFieldsF_printFields (pv : Str → Option (JVal × Str))
    (hpv : ∀ (w s r : Str), (∀ ch ∈ w, isJsonWs ch = true) →
      pv (w ++ (qStr s ++ r)) = some (.jstr s, r)) :
    ∀ (fields : List (Str × Str)) (g : Nat) (rest : Str), fields ≠ [] → fields.length ≤ g →
      parseFieldsF pv g ('\n' :: (joinSep (',' :: '\n' :: []) (fields.map printField) ++
        ('\n' :: ' ' :: ' ' :: '\x7d' :: rest))) =
      some (fields.map (fun kv => (kv.1, JVal.jstr kv.2)), rest) := by
  intro fields
  induction fields with
  | nil => intro g rest hne _; exact absurd rfl hne
  | cons kv ds ih =>
    intro g rest _ hlen
    obtain ⟨k, v⟩ := kv
    obtain ⟨g2, rfl⟩ : ∃ g2, g = g2 + 1 := ⟨g - 1, by simp at hlen; omega⟩
    cases ds with
    | nil =>
      simp only [List.map_cons, List.map_nil, joinSep]
      rw [parseFieldsF_field pv hpv g2 k v ('\n' :: ' ' :: ' ' :: '\x7d' :: rest)]
      have hskip : skipWs ('\n' :: ' ' :: ' ' :: '\x7d' :: rest) = '\x7d' :: rest := by
        rw [show ('\n' :: ' ' :: ' ' :: '\x7d' :: rest) =
          (('\n' :: ' ' :: ' ' :: []) ++ ('\x7d' :: rest)) from rfl,
          skipWs_ws_append _ _ (by decide), skipWs_not_ws '\x7d' _ (by decide)]
      simp only [hskip]
    | cons e ds2 =>
      simp only [List.map_cons, joinSep]
      have hre : (printField (k, v) ++ (',' :: '\n' :: []) ++
          joinSep (',' :: '\n' :: []) (printField e :: ds2.map printField)) ++
          ('\n' :: ' ' :: ' ' :: '\x7d' :: rest) =
          printField (k, v) ++ (',' :: '\n' ::
            (joinSep (',' :: '\n' :: []) (printField e :: ds2.map printField) ++
              ('\n' :: ' ' :: ' ' :: '\x7d' :: rest))) := by
        simp [List.append_assoc]
      rw [hre, parseFieldsF_field pv hpv g2 k v]
      have hskip2 := skipWs_not_ws ','
        ('\n' :: (joinSep (',' :: '\n' :: []) (printField e :: ds2.map printField) ++
          ('\n' :: ' ' :: ' ' :: '\x7d' :: rest))) (by decide)
      have hih := ih g2 rest (by simp) (by simp at hlen ⊢; omega)
      simp only [List.map_cons] at hih
      simp only [hskip2, hih]


/-- Object branch of the value parser: when the next non-space character is
`\x7b`, the parser tries the empty object and otherwise delegates to the
field parser. -/
theorem parseValF_obj_step (f : Nat) (s cs : Str) (h : skipWs s = '\x7b' :: cs) :
    parseValF (f + 1) s =
    (match skipWs cs with
     | '\x7d' :: r2 => some (.jobj [], r2)
     | _ =>
       match parseFieldsF (parseValF f) f cs with
       | some (fs, r2) => some (.jobj fs, r2)
       | none => none) := by
  rw [parseValF_succ_eq, h]
  rfl

/-- Array branch of the value parser: when the next non-space character is
`[`, the parser tries the empty array and otherwise delegates to the item
parser. -/
theorem parseValF_arr_step (f : Nat) (s cs : Str) (h : skipWs s = '[' :: cs) :
    parseValF (f + 1) s =
    (match skipWs cs with
     | ']' :: r2 => some (.jarr [], r2)
     | _ =>
       match parseItemsF (parseValF f) f cs with
       | some (vs, r2) => some (.jarr vs, r2)
       | none => none) := by
  rw [parseValF_succ_eq, h]
  rfl

/-- `joinSep` of a non-empty list starts with its first element. -/
theorem joinSep_cons (sep x : Str) (l : List Str) :
    ∃ u, joinSep sep (x :: l) = x ++ u := by
  cases l with
  | nil => exact ⟨[], by simp [joinSep]⟩
  | cons y r => exact ⟨sep ++ joinSep sep (y :: r), by simp [joinSep, List.append_assoc]⟩

/-- After the newline, a printed field line opens with a double quote. -/
theorem skipWs_field_head (kv : Str × Str) (t : Str) :
    skipWs ('\n' :: (printField kv ++ t)) =
    '"' :: (escStr kv.1 ++ ('"' :: (':' :: ' ' :: (qStr kv.2 ++ t)))) := by
  obtain ⟨k, v⟩ := kv
  have hin : '\n' :: (printField (k, v) ++ t) =
      ('\n' :: ' ' :: ' ' :: ' ' :: ' ' :: []) ++
        ('"' :: (escStr k ++ ('"' :: (':' :: ' ' :: (qStr v ++ t))))) := by
    simp [printField, qStr, List.append_assoc]
  rw [hin, skipWs_ws_append _ _ (by decide), skipWs_not_ws '"' _ (by decide)]

/-- After the newline, a printed document object opens with `\x7b`. -/
theorem skipWs_docObj_head (d : OutDoc) (t : Str) :
    ∃ z, skipWs ('\n' :: (printDocObj d ++ t)) = '\x7b' :: z := by
  refine ⟨'\n' :: (joinSep (',' :: '\n' :: [])
    ([("document_number".data, d.document_number),
      ("title".data, d.title),
      ("publication_date".data, d.publication_date),
      ("abstract".data, d.abstract),
      ("html_url".data, d.html_url)].map printField) ++
    ('\n' :: ' ' :: ' ' :: '\x7d' :: t)), ?_⟩
  have hin : '\n' :: (printDocObj d ++ t) =
      ('\n' :: ' ' :: ' ' :: []) ++
        ('\x7b' :: ('\n' :: (joinSep (',' :: '\n' :: [])
          ([("document_number".data, d.document_number),
            ("title".data, d.title),
            ("publication_date".data, d.publication_date),
            ("abstract".data, d.abstract),
            ("html_url".data, d.html_url)].map printField) ++
          ('\n' :: ' ' :: ' ' :: '\x7d' :: t)))) := by
    simp only [printDocObj, printStrObjIndented, List.cons_append, List.nil_append,
      List.append_assoc]
  rw [hin, skipWs_ws_append _ _ (by decide), skipWs_not_ws '\x7b' _ (by decide)]

/-- Every printed indented object is at least 8 characters long. -/
theorem printStrObjIndented_length_ge (fields : List (Str × Str)) :
    8 ≤ (printStrObjIndented fields).length := by
  simp only [printStrObjIndented, List.length_append, List.length_cons, List.length_nil]
  omega

/-- Every printed document object is at least 8 characters long. -/
theorem printDocObj_length_ge (d : OutDoc) : 8 ≤ (printDocObj d).length := by
  simp only [printDocObj]
  exact printStrObjIndented_length_ge _

/-- `joinSep` over elements of length at least 8 has length at least 8 per
element. -/
theorem joinSep_length_ge (sep : Str) : ∀ (l : List Str), (∀ x ∈ l, 8 ≤ x.length) →
    8 * l.length ≤ (joinSep sep l).length := by
  intro l
  induction l with
  | nil => intro _; simp [joinSep]
  | cons x r ih =>
    intro h
    cases r with
    | nil =>
      have := h x (by simp)
      simp only [joinSep, List.length_cons, List.length_nil]
      omega
    | cons y r2 =>
      have h1 := h x (by simp)
      have h2 := ih (fun z hz => h z (by simp [hz]))
      simp only [joinSep, List.length_append, List.length_cons] at h2 ⊢
      omega

/-- Parsing a printed indented object of string fields. -/
theorem parseValF_strObj (f : Nat) (w : Str) (fields : List (Str × Str)) (rest : Str)
    (hw : ∀ ch ∈ w, isJsonWs ch = true) (hne : fields ≠ [])
    (hlen : fields.length ≤ f) (hf : 1 ≤ f) :
    parseValF (f + 1) (w ++ (printStrObjIndented fields ++ rest)) =
    some (.jobj (fields.map (fun kv => (kv.1, JVal.jstr kv.2))), rest) := by
  obtain ⟨f2, rfl⟩ : ∃ f2, f = f2 + 1 := ⟨f - 1, by omega⟩
  cases fields with
  | nil => exact absurd rfl hne
  | cons kv ds =>
    have hww : ∀ c ∈ w ++ (' ' :: ' ' :: []), isJsonWs c = true := by
      intro c hc
      rcases List.mem_append.mp hc with h | h
      · exact hw c h
      · simp only [List.mem_cons, List.not_mem_nil, or_false] at h
        rcases h with rfl | rfl <;> rfl
    have hin : w ++ (printStrObjIndented (kv :: ds) ++ rest) =
        (w ++ (' ' :: ' ' :: [])) ++ ('\x7b' ::
          ('\n' :: (joinSep (',' :: '\n' :: []) ((kv :: ds).map printField) ++
            ('\n' :: ' ' :: ' ' :: '\x7d' :: rest)))) := by
      simp only [printStrObjIndented, List.cons_append, List.nil_append, List.append_assoc]
    have hskip : skipWs (w ++ (printStrObjIndented (kv :: ds) ++ rest)) =
        '\x7b' :: ('\n' :: (joinSep (',' :: '\n' :: []) ((kv :: ds).map printField) ++
          ('\n' :: ' ' :: ' ' :: '\x7d' :: rest))) := by
      rw [hin, skipWs_ws_append _ _ hww, skipWs_not_ws '\x7b' _ (by decide)]
    rw [parseValF_obj_step (f2 + 1) _ _ hskip]
    obtain ⟨u, hu⟩ := joinSep_cons (',' :: '\n' :: []) (printField kv) (ds.map printField)
    have hcs : skipWs ('\n' :: (joinSep (',' :: '\n' :: []) ((kv :: ds).map printField) ++
        ('\n' :: ' ' :: ' ' :: '\x7d' :: rest))) =
        '"' :: (escStr kv.1 ++ ('"' :: (':' :: ' ' ::
          (qStr kv.2 ++ (u ++ ('\n' :: ' ' :: ' ' :: '\x7d' :: rest)))))) := by
      rw [List.map_cons, hu, List.append_assoc]
      exact skipWs_field_head kv (u ++ ('\n' :: ' ' :: ' ' :: '\x7d' :: rest))
    have hpv : ∀ (w2 s2 r2 : Str), (∀ ch ∈ w2, isJsonWs ch = true) →
        parseValF (f2 + 1) (w2 ++ (qStr s2 ++ r2)) = some (.jstr s2, r2) :=
      fun w2 s2 r2 hw2 => parseValF_qStr f2 w2 s2 r2 hw2
    have hfields := parseFieldsF_printFields (parseValF (f2 + 1)) hpv (kv :: ds)
      (f2 + 1) rest (by simp) hlen
    simp only [hcs, hfields]
    rfl

/-- Parsing one printed document object (fuel at least 6), possibly after
leading whitespace. -/
theorem parseValF_printDocObj (f : Nat) (hf : 6 ≤ f) (w : Str) (d : OutDoc) (rest : Str)
    (hw : ∀ ch ∈ w, isJsonWs ch = true) :
    parseValF f (w ++ (printDocObj d ++ rest)) = some (docToJVal d, rest) := by
  obtain ⟨f2, rfl⟩ : ∃ f2, f = f2 + 1 := ⟨f - 1, by omega⟩
  simp only [printDocObj]
  rw [parseValF_strObj f2 w _ rest hw (by simp)
    (by simp only [List.length_cons, List.length_nil]; omega) (by omega)]
  rfl

/-- Parsing the printed items of a non-empty document array. -/
theorem parseItemsF_printDocs (pv : Str → Option (JVal × Str))
    (hpv : ∀ (w : Str) (d : OutDoc) (r : Str), (∀ ch ∈ w, isJsonWs ch = true) →
      pv (w ++ (printDocObj d ++ r)) = some (docToJVal d, r)) :
    ∀ (docs : List OutDoc) (g : Nat) (rest : Str), docs ≠ [] → docs.length ≤ g →
      parseItemsF pv g ('\n' :: (joinSep (',' :: '\n' :: []) (docs.map printDocObj) ++
        ('\n' :: ']' :: rest))) =
      some (docs.map docToJVal, rest) := by
  intro docs
  induction docs with
  | nil => intro g rest hne _; exact absurd rfl hne
  | cons d ds ih =>
    intro g rest _ hlen
    obtain ⟨g2, rfl⟩ : ∃ g2, g = g2 + 1 := ⟨g - 1, by simp at hlen; omega⟩
    cases ds with
    | nil =>
      simp only [List.map_cons, List.map_nil, joinSep]
      rw [parseItemsF_succ_eq]
      rw [show ('\n' :: (printDocObj d ++ ('\n' :: ']' :: rest))) =
        (('\n' :: []) ++ (printDocObj d ++ ('\n' :: ']' :: rest))) from rfl,
        hpv ('\n' :: []) d ('\n' :: ']' :: rest) (by decide)]
      have hskip : skipWs ('\n' :: ']' :: rest) = ']' :: rest := by
        rw [show ('\n' :: ']' :: rest) = (('\n' :: []) ++ (']' :: rest)) from rfl,
          skipWs_ws_append _ _ (by decide), skipWs_not_ws ']' _ (by decide)]
      simp only [hskip]
    | cons e ds2 =>
      simp only [List.map_cons, joinSep]
      have hre : '\n' :: ((printDocObj d ++ (',' :: '\n' :: []) ++
          joinSep (',' :: '\n' :: []) (printDocObj e :: ds2.map printDocObj)) ++
          ('\n' :: ']' :: rest)) =
          ('\n' :: []) ++ (printDocObj d ++ (',' ::
            ('\n' :: (joinSep (',' :: '\n' :: []) (printDocObj e :: ds2.map printDocObj) ++
              ('\n' :: ']' :: rest))))) := by
        simp only [List.cons_append, List.nil_append, List.append_assoc]
      rw [parseItemsF_succ_eq, hre, hpv ('\n' :: []) d _ (by decide)]
      have hskip2 := skipWs_not_ws ','
        ('\n' :: (joinSep (',' :: '\n' :: []) (printDocObj e :: ds2.map printDocObj) ++
          ('\n' :: ']' :: rest))) (by decide)
      have hih := ih g2 rest (by simp) (by simp at hlen ⊢; omega)
      simp only [List.map_cons] at hih
      simp only [hskip2, hih]

/-- Parsing the full printed non-empty document array at sufficient fuel. -/
theorem parseValF_printDocsJson_aux (f : Nat) (d : OutDoc) (ds : List OutDoc)
    (h6 : 6 ≤ f) (hn : (d :: ds).length ≤ f) :
    parseValF (f + 1) ('[' :: ('\n' :: (joinSep (',' :: '\n' :: [])
      ((d :: ds).map printDocObj) ++ ('\n' :: ']' :: [])))) =
    some (.jarr ((d :: ds).map docToJVal), []) := by
  rw [parseValF_arr_step f _ _ (skipWs_not_ws '[' _ (by decide))]
  obtain ⟨u, hu⟩ := joinSep_cons (',' :: '\n' :: []) (printDocObj d) (ds.map printDocObj)
  obtain ⟨z, hz⟩ := skipWs_docObj_head d (u ++ ('\n' :: ']' :: []))
  have hcs : skipWs ('\n' :: (joinSep (',' :: '\n' :: []) ((d :: ds).map printDocObj) ++
      ('\n' :: ']' :: []))) = '\x7b' :: z := by
    rw [List.map_cons, hu, List.append_assoc]
    exact hz
  have hpv : ∀ (w : Str) (d2 : OutDoc) (r : Str), (∀ ch ∈ w, isJsonWs ch = true) →
      parseValF f (w ++ (printDocObj d2 ++ r)) = some (docToJVal d2, r) :=
    fun w d2 r hw => parseValF_printDocObj f h6 w d2 r hw
  have hitems := parseItemsF_printDocs (parseValF f) hpv (d :: ds) f [] (by simp) hn
  simp only [hcs, hitems]
  rfl

/-- `json.loads` inverts `json.dumps(documents, indent=2)` on a non-empty
document list. -/
theorem parseJson_printDocsJson (docs : List OutDoc) (hne : docs ≠ []) :
    parseJson (printDocsJson docs) = some (.jarr (docs.map docToJVal)) := by
  obtain ⟨d, ds, rfl⟩ : ∃ d ds, docs = d :: ds := by
    cases docs with
    | nil => exact absurd rfl hne
    | cons d ds => exact ⟨d, ds, rfl⟩
  have hs : printDocsJson (d :: ds) =
      '[' :: ('\n' :: (joinSep (',' :: '\n' :: []) ((d :: ds).map printDocObj) ++
        ('\n' :: ']' :: []))) := by
    simp only [printDocsJson]
    rw [if_neg (by simp : ¬(d :: ds : List OutDoc) = [])]
  rw [hs]
  have hJ8 : 8 * ((d :: ds).map printDocObj).length ≤
      (joinSep (',' :: '\n' :: []) ((d :: ds).map printDocObj)).length := by
    refine joinSep_length_ge _ _ ?_
    intro x hx
    simp only [List.mem_map] at hx
    obtain ⟨d2, -, rfl⟩ := hx
    exact printDocObj_length_ge d2
  have hmaplen : ((d :: ds).map printDocObj).length = ds.length + 1 := by simp
  rw [hmaplen] at hJ8
  have h6 : 6 ≤ ('[' :: ('\n' :: (joinSep (',' :: '\n' :: [])
      ((d :: ds).map printDocObj) ++ ('\n' :: ']' :: [])))).length := by
    simp only [List.length_cons, List.length_append, List.length_nil]
    omega
  have hn : (d :: ds).length ≤ ('[' :: ('\n' :: (joinSep (',' :: '\n' :: [])
      ((d :: ds).map printDocObj) ++ ('\n' :: ']' :: [])))).length := by
    simp only [List.length_cons, List.length_append, List.length_nil]
    omega
  simp only [parseJson]
  rw [parseValF_printDocsJson_aux _ d ds h6 hn]
  rfl

/-- When the tool output parses as a non-empty JSON array, the orchestrator
renders the markdown document blocks. -/
theorem formatToolOutput_jarr_cons (s : Str) (x : JVal) (xs : List JVal)
    (h : parseJson s = some (JVal.jarr (x :: xs))) :
    formatToolOutput s = formatDocsMd (x :: xs) := by
  simp only [formatToolOutput, h, isJObj, Bool.false_and, Bool.false_eq_true, if_false]

/-- Appending preserves a known head character. -/
theorem cons_head_append (a b : Str) (c : Char) (t : Str) (h : a = c :: t) :
    ∃ u, a ++ b = c :: u := ⟨t ++ b, by rw [h]; rfl⟩

/-- The markdown block for one document starts with a dash. -/
theorem docMdBlock_head (x : JVal) : ∃ u, docMdBlock x = '-' :: u := by
  have h1 : "- **Title:** ".data = '-' :: " **Title:** ".data := rfl
  obtain ⟨u1, hu1⟩ := cons_head_append _ (jGetStrD x "title".data "N/A".data) '-' _ h1
  obtain ⟨u2, hu2⟩ := cons_head_append _ "\n- **Document Number:** ".data '-' _ hu1
  obtain ⟨u3, hu3⟩ :=
    cons_head_append _ (jGetStrD x "document_number".data "N/A".data) '-' _ hu2
  obtain ⟨u4, hu4⟩ := cons_head_append _ "\n- **Publication Date:** ".data '-' _ hu3
  obtain ⟨u5, hu5⟩ :=
    cons_head_append _ (jGetStrD x "publication_date".data "N/A".data) '-' _ hu4
  obtain ⟨u6, hu6⟩ := cons_head_append _ "\n- **Link:** [Read Document](".data '-' _ hu5
  obtain ⟨u7, hu7⟩ := cons_head_append _ (jGetStrD x "html_url".data "#".data) '-' _ hu6
  obtain ⟨u8, hu8⟩ := cons_head_append _ ")".data '-' _ hu7
  exact ⟨u8, hu8⟩

/-- The rendered markdown for a non-empty document list starts with a dash. -/
theorem formatDocsMd_head (x : JVal) (xs : List JVal) :
    ∃ t, formatDocsMd (x :: xs) = '-' :: t := by
  obtain ⟨u, hu⟩ := docMdBlock_head x
  cases xs with
  | nil => exact ⟨u, by simp only [formatDocsMd, List.map_cons, List.map_nil, joinSep, hu]⟩
  | cons y ys =>
    obtain ⟨u2, hu2⟩ := cons_head_append _ "\n---\n".data '-' _ hu
    obtain ⟨u3, hu3⟩ := cons_head_append _
      (joinSep "\n---\n".data (docMdBlock y :: ys.map docMdBlock)) '-' _ hu2
    exact ⟨u3, by simp only [formatDocsMd, List.map_cons, joinSep]; exact hu3⟩

set_option maxRecDepth 8000 in
/-- C10: every string returned by `search_federal_executive_orders` —
documents found, empty result, database error, or unexpected error — parses
as JSON, and is a non-empty array of document objects, an object with a
`message` field, or an object with an `error` field; consequently the
orchestrator branch for non-JSON tool output ("Error: Tool data invalid.")
is unreachable on this tool's output. -/
theorem C10_tool_output_always_json (today : Date) (store : List StoreRow)
    (dbo : DbOutcome) (qk : Option Str) (dr : Str) :
    (∃ v, parseJson (search_federal_executive_orders today store dbo qk dr) = some v ∧
      ((∃ ds2, ds2 ≠ [] ∧ v = JVal.jarr (ds2.map docToJVal)) ∨
       (∃ m, v = JVal.jobj [("message".data, JVal.jstr m)]) ∨
       (∃ e, v = JVal.jobj [("error".data, JVal.jstr e)]))) ∧
    formatToolOutput (search_federal_executive_orders today store dbo qk dr) ≠
      "Error: Tool data invalid.".data := by
  cases dbo with
  | sqlErr =>
    have hs : search_federal_executive_orders today store .sqlErr qk dr =
        printKVObj "error".data "A database error occurred.".data := rfl
    rw [hs]
    refine ⟨⟨JVal.jobj [("error".data, JVal.jstr "A database error occurred.".data)],
      ?_, Or.inr (Or.inr ⟨_, rfl⟩)⟩, ?_⟩
    · rfl
    · decide
  | otherErr =>
    have hs : search_federal_executive_orders today store .otherErr qk dr =
        printKVObj "error".data "An unexpected error occurred in the tool.".data := rfl
    rw [hs]
    refine ⟨⟨JVal.jobj [("error".data,
      JVal.jstr "An unexpected error occurred in the tool.".data)],
      ?_, Or.inr (Or.inr ⟨_, rfl⟩)⟩, ?_⟩
    · rfl
    · decide
  | ok =>
    by_cases hd : searchDocs today store qk dr = []
    · have hs : search_federal_executive_orders today store .ok qk dr =
          printKVObj "message".data
            "No relevant executive orders found matching your criteria in the database.".data := by
        simp only [search_federal_executive_orders]
        rw [if_pos hd]
      rw [hs]
      refine ⟨⟨JVal.jobj [("message".data, JVal.jstr
        "No relevant executive orders found matching your criteria in the database.".data)],
        ?_, Or.inr (Or.inl ⟨_, rfl⟩)⟩, ?_⟩
      · rfl
      · decide
    · have hs : search_federal_executive_orders today store .ok qk dr =
          printDocsJson (searchDocs today store qk dr) := by
        simp only [search_federal_executive_orders]
        rw [if_neg hd]
      rw [hs]
      have hparse := parseJson_printDocsJson (searchDocs today store qk dr) hd
      refine ⟨⟨JVal.jarr ((searchDocs today store qk dr).map docToJVal), hparse,
        Or.inl ⟨searchDocs today store qk dr, hd, rfl⟩⟩, ?_⟩
      obtain ⟨d, ds, hds⟩ : ∃ d ds, searchDocs today store qk dr = d :: ds := by
        cases hcase : searchDocs today store qk dr with
        | nil => exact absurd hcase hd
        | cons d ds => exact ⟨d, ds, rfl⟩
      have hparse2 := hparse
      rw [hds, List.map_cons] at hparse2
      rw [hds, formatToolOutput_jarr_cons _ _ _ hparse2]
      obtain ⟨t, ht⟩ := formatDocsMd_head (docToJVal d) (ds.map docToJVal)
      rw [ht, show ("Error: Tool data invalid.".data : Str) =
        'E' :: "rror: Tool data invalid.".data from rfl]
      intro hEq
      simp only [List.cons.injEq] at hEq
      exact absurd hEq.1 (by decide)

end DailyBrief
